import Mathlib

/-!
Shallow embedding of the grid simulation engine of the Siilveer_paniic
repository: the tile grid, trail tracker, flood-fill capture engine,
adversary motion, death protocol, combo scoring and item spawner found in
the `GameCanvas` component (`src/unnamed/part_003`).  Pure data is
translated directly; in-place mutation becomes explicit state passing;
JavaScript numbers holding tile indices become `Int`/`Nat`, timestamps
become `Int` milliseconds, and continuous positions become `ℚ`.
`Math.random()` draws are passed in explicitly as rational oracle inputs.
Purely visual state (particles, flash effects, floating texts, canvas
drawing) feeds nothing back into the simulation and is omitted.
-/

namespace Siilveer

/-- Tile states of the grid: the source uses `0` = Revealed (empty/safe),
`1` = Hidden (filled), `2` = Trail (currently drawing). -/
inductive Tile
  | revealed
  | hidden
  | trail
deriving DecidableEq

abbrev Pt := Nat × Nat

abbrev Grid := List (List Tile)

/-- Reading `grid[y][x]`; an out-of-range index gives `none`
(JS `undefined`). -/
def tileAt (g : Grid) (x y : Nat) : Option Tile :=
  g[y]?.bind fun row => row[x]?

/-- Reading `grid[tileY]?.[tileX]` with possibly negative indices, as in
the adversary update: a negative or out-of-range index yields `none`. -/
def tileAtZ (g : Grid) (x y : Int) : Option Tile :=
  if 0 ≤ x ∧ 0 ≤ y then tileAt g x.toNat y.toNat else none

/-- Writing `grid[y][x] = t` (an in-place assignment in the source; all
call sites have already bounds-checked `x` and `y`). -/
def setTile (g : Grid) (x y : Nat) (t : Tile) : Grid :=
  match g[y]? with
  | some row => g.set y (row.set x t)
  | none => g

/-- Count of revealed tiles of the whole grid (the source counts
`grid[y][x] === 0` while sweeping the grid). -/
def countRevealed (g : Grid) : Nat :=
  (g.map fun row => row.countP fun t => decide (t = Tile.revealed)).sum

/-- The grid has exactly `H` rows of exactly `W` tiles each. -/
def gridWF (W H : Nat) (g : Grid) : Prop :=
  g.length = H ∧ ∀ row ∈ g, row.length = W

instance (W H : Nat) (g : Grid) : Decidable (gridWF W H g) := by
  unfold gridWF
  infer_instance

/-- Grid dimension constants from `src/constants.ts`. -/
def GRID_WIDTH : Nat := 60

/-- Grid dimension constants from `src/constants.ts`. -/
def GRID_HEIGHT : Nat := 45

/-- Invulnerability window in milliseconds, from `src/constants.ts`. -/
def INVULNERABILITY_TIME : Int := 3000

/-- Combo chain timeout in milliseconds, from `src/constants.ts`. -/
def COMBO_TIMEOUT_MS : Int := 2500

/-- Idle (no movement) combo timeout in milliseconds, from
`src/constants.ts`. -/
def IDLE_TIMEOUT_MS : Int := 2000

/-- An adversary; continuous position and velocity are embedded as `ℚ`. -/
structure Enemy where
  x : ℚ
  y : ℚ
  vx : ℚ
  vy : ℚ
deriving DecidableEq

/-- The tile containing an adversary:
`Math.floor(enemy.x)`, `Math.floor(enemy.y)`. -/
def enemyStart (e : Enemy) : Int × Int := (Rat.floor e.x, Rat.floor e.y)

theorem ratFloor_eq_floor (q : ℚ) : Rat.floor q = ⌊q⌋ :=
  (Rat.floor_def' q).trans Rat.floor_def.symm

/-- Player state (`playerRef`); `lives` is an `Int` because the source
decrements a JS number without clamping. -/
structure Player where
  x : Int
  y : Int
  lives : Int
  isDrawing : Bool
  invulnerableUntil : Int
  lastMoveTime : Int
deriving DecidableEq

/-- A bonus item (`itemsRef` entries; `type` is always `SCORE`). -/
structure Item where
  x : Nat
  y : Nat
  life : ℚ
  maxLife : ℚ
deriving DecidableEq

/-- The exposed stats record (`statsRef`). -/
structure Stats where
  areaRevealed : ℚ
  timeElapsed : ℚ
  score : Int
deriving DecidableEq

/-- Combo system state (`comboRef`). -/
structure Combo where
  count : Nat
  lastActionTime : Int
  lastMoveTime : Int
deriving DecidableEq

/-- The complete logical state owned by the simulation tick. -/
structure GameState where
  grid : Grid
  player : Player
  enemies : List Enemy
  items : List Item
  stats : Stats
  trail : List Pt
  combo : Combo
deriving DecidableEq

/-- Per-level configuration fields the engine reads. -/
structure LevelConfig where
  minRevealPercent : ℚ
  enemyCount : Nat
  bossSpeed : ℚ

/-- Outbound events fired during one tick (callback invocations). -/
structure TickEvents where
  livesChanges : List Int
  gameOver : List Stats
  levelComplete : Option Stats
  areaCapture : Bool
  itemCollects : Nat
  statsUpdate : Option Stats
deriving DecidableEq

def emptyEvents : TickEvents :=
  { livesChanges := [], gameOver := [], levelComplete := none,
    areaCapture := false, itemCollects := 0, statsUpdate := none }

/-! ## Capture flood fill (`fillCapturedArea`, part_003 lines 644-743)

The source builds `tempGrid` (a copy of the grid with the trail tiles
provisionally set to `0`), then runs, per adversary, an explicit
stack-based flood fill over a shared string-keyed `visited` set; the
`visited` set is embedded as a `Finset Pt`.  The `while` loop is embedded
with an explicit fuel argument; `floodFuel` is proved sufficient below, so
that the `completed` flag of `FloodOut` records that every loop exited
because its stack drained. -/

/-- Write tile state `t` at every coordinate of `ps`
(`ps.forEach(p => { grid[p.y][p.x] = t; })`). -/
def setAll (g : Grid) (ps : List Pt) (t : Tile) : Grid :=
  ps.foldl (fun g p => setTile g p.1 p.2 t) g

/-- Copy of the grid where currently-trail tiles are treated as revealed:
`trailRef.current.forEach(p => { tempGrid[p.y][p.x] = 0; })`. -/
def tempGridOf (g : Grid) (trail : List Pt) : Grid :=
  setAll g trail Tile.revealed

/-- The four candidate neighbours `{x±1,y}`, `{x,y±1}` of a tile, before
the bounds check (so over `Int`). -/
def nbrs (p : Pt) : List (Int × Int) :=
  [((p.1 : Int) + 1, (p.2 : Int)), ((p.1 : Int) - 1, (p.2 : Int)),
   ((p.1 : Int), (p.2 : Int) + 1), ((p.1 : Int), (p.2 : Int) - 1)]

/-- Body of `for (const n of neighbors)`: push `n` when it is in bounds,
its `tempGrid` tile is `1` (hidden) and it is not yet visited; pushing
also marks it visited. -/
def pushNbr (W H : Nat) (g : Grid) (acc : Finset Pt × List Pt)
    (n : Int × Int) : Finset Pt × List Pt :=
  if 0 ≤ n.1 ∧ n.1 < (W : Int) ∧ 0 ≤ n.2 ∧ n.2 < (H : Int) then
    let q : Pt := (n.1.toNat, n.2.toNat)
    if tileAt g q.1 q.2 = some Tile.hidden ∧ q ∉ acc.1 then
      (insert q acc.1, q :: acc.2)
    else acc
  else acc

/-- The `while (stack.length > 0)` loop: pop the top of the stack and push
its admissible neighbours.  The head of the list is the top of the stack
(the source pushes to and pops from the array's end).  `fuel` bounds the
number of iterations; `floodFuel` below always suffices. -/
def floodLoop (W H : Nat) (g : Grid) :
    Nat → Finset Pt → List Pt → Finset Pt × List Pt
  | 0, visited, stack => (visited, stack)
  | _ + 1, visited, [] => (visited, [])
  | fuel + 1, visited, p :: rest =>
      let acc := (nbrs p).foldl (pushNbr W H g) (visited, rest)
      floodLoop W H g fuel acc.1 acc.2

/-- Fuel sufficient for `floodLoop` to drain its stack (proved below). -/
def floodFuel (W H : Nat) : Nat := 2 * (W * H) + 1

/-- Result of the per-adversary flood fills: the visited set, plus a flag
recording that every `while` loop terminated by draining its stack. -/
structure FloodOut where
  visited : Finset Pt
  completed : Bool
deriving DecidableEq

/-- One iteration of the `for (const enemy of enemies)` flood-fill
driver: skip an adversary whose floored tile is out of bounds, whose
`tempGrid` tile is already revealed, or whose tile was already visited;
otherwise seed the stack with that tile (marking it visited) and run the
loop. -/
def enemyFill (W H : Nat) (g : Grid) (out : FloodOut) (e : Enemy) :
    FloodOut :=
  let s := enemyStart e
  if s.1 < 0 ∨ (W : Int) ≤ s.1 ∨ s.2 < 0 ∨ (H : Int) ≤ s.2 then out
  else
    let q : Pt := (s.1.toNat, s.2.toNat)
    if tileAt g q.1 q.2 = some Tile.revealed then out
    else if q ∈ out.visited then out
    else
      let r := floodLoop W H g (floodFuel W H) (insert q out.visited) [q]
      ⟨r.1, out.completed && r.2.isEmpty⟩

/-- The flood fills of all adversaries, sharing one visited set. -/
def runEnemies (W H : Nat) (g : Grid) (enemies : List Enemy) : FloodOut :=
  enemies.foldl (enemyFill W H g) ⟨∅, true⟩

/-! ### The grid sweep of `fillCapturedArea` (lines 702-743)

The source makes one in-place pass over the grid: trail tiles become
revealed, unvisited hidden tiles are captured (become revealed, adding
`10 * combo` to the score and setting `didCapture`), and revealed tiles of
the updated grid are counted.  The pass is embedded as a pointwise grid
map plus folds over the same enumeration. -/

/-- Pointwise tile update of the sweep. -/
def postTile (visited : Finset Pt) (x y : Nat) : Tile → Tile
  | Tile.trail => Tile.revealed
  | Tile.hidden => if (x, y) ∈ visited then Tile.hidden else Tile.revealed
  | Tile.revealed => Tile.revealed

/-- The grid after the sweep. -/
def postGrid (visited : Finset Pt) (g : Grid) : Grid :=
  g.mapIdx fun y row => row.mapIdx fun x t => postTile visited x y t

/-- A cell is captured by the sweep when it is hidden and unvisited. -/
def capturedCell (visited : Finset Pt) (x y : Nat) (t : Tile) : Prop :=
  t = Tile.hidden ∧ (x, y) ∉ visited

instance (visited : Finset Pt) (x y : Nat) (t : Tile) :
    Decidable (capturedCell visited x y t) := by
  unfold capturedCell; infer_instance

/-- Number of tiles captured by the sweep. -/
def capturedCount (visited : Finset Pt) (g : Grid) : Nat :=
  (g.enum.map fun yr =>
    yr.2.enum.countP fun xt => decide (capturedCell visited xt.1 yr.1 xt.2)).sum

/-- Score added by the sweep: the source adds `10 * combo` once per
captured tile while sweeping. -/
def sweepScore (visited : Finset Pt) (combo : Nat) (g : Grid) : Int :=
  (g.enum.map fun yr =>
    (yr.2.enum.map fun xt =>
      if capturedCell visited xt.1 yr.1 xt.2 then (10 * combo : Int) else 0).sum).sum

/-- Result of `fillCapturedArea`. -/
structure FillResult where
  grid : Grid
  score : Int
  combo : Nat
  lastActionTime : Int
  didCapture : Bool
  areaRevealed : ℚ
  floodCompleted : Bool

/-- `fillCapturedArea` (lines 644-743): unconditionally increments the
combo count, stamps the action time, builds `tempGrid`, runs the
per-adversary flood fills and sweeps the grid.  `areaRevealed` is the
revealed percentage of the updated grid. -/
def fillCapturedArea (W H : Nat) (g : Grid) (trail : List Pt)
    (enemies : List Enemy) (comboCount : Nat) (now : Int) (score : Int) :
    FillResult :=
  let combo := comboCount + 1
  let tg := tempGridOf g trail
  let fo := runEnemies W H tg enemies
  let g' := postGrid fo.visited g
  let revealedCount := countRevealed g'
  { grid := g'
    score := score + sweepScore fo.visited combo g
    combo := combo
    lastActionTime := now
    didCapture := decide (0 < capturedCount fo.visited g)
    areaRevealed := ((revealedCount : ℚ) / ((W * H : Nat) : ℚ)) * 100
    floodCompleted := fo.completed }

/-! ## Death protocol (`handleDeath`, part_003 lines 745-774) -/

/-- `handleDeath`: break the combo, decrement lives (firing the
lives-changed callback), revert every trail tile to hidden, clear the
trail, stop drawing, reset the player to the spawn corner `(0,0)`; grant
the invulnerability window when lives remain, otherwise fire game-over
with the current stats. -/
def handleDeath (now : Int) (s : GameState) (ev : TickEvents) :
    GameState × TickEvents :=
  let combo' := { s.combo with count := 1 }
  let lives' := s.player.lives - 1
  let grid' := setAll s.grid s.trail Tile.hidden
  let player' :=
    { s.player with
      lives := lives', isDrawing := false, x := 0, y := 0,
      invulnerableUntil :=
        if 0 < lives' then now + INVULNERABILITY_TIME
        else s.player.invulnerableUntil }
  let ev' :=
    { ev with
      livesChanges := ev.livesChanges ++ [lives'],
      gameOver := if 0 < lives' then ev.gameOver else ev.gameOver ++ [s.stats] }
  ({ s with combo := combo', grid := grid', trail := [], player := player' },
   ev')

/-! ## Combo checker (part_003 lines 441-446 and 459-465) -/

/-- `breakCombo`: reset the streak to 1 (only doing anything, and only
emitting the broken text, when the count exceeds 1). -/
def breakCombo (c : Combo) : Combo :=
  if 1 < c.count then { c with count := 1 } else c

/-- The combo checker at the top of `update`: break on idle timeout, then
break on capture timeout (the latter guarded by `count > 1`). -/
def comboCheck (now : Int) (c : Combo) : Combo :=
  let c1 := if IDLE_TIMEOUT_MS < now - c.lastMoveTime then breakCombo c else c
  if 1 < c1.count ∧ COMBO_TIMEOUT_MS < now - c1.lastActionTime then
    breakCombo c1
  else c1

/-! ## Item logic (part_003 lines 497-538) -/

/-- Item spawning: with the spawn roll below `0.003` and fewer than 3
active items, pick a uniformly random interior tile; spawn only when that
tile is hidden (`1`) or revealed (`0`) — not on the trail. -/
def itemSpawn (W H : Nat) (itemLifetime : ℚ) (spawnRoll rxRoll ryRoll : ℚ)
    (s : GameState) : GameState :=
  if spawnRoll < 3 / 1000 ∧ s.items.length < 3 then
    let rx := (Rat.floor (rxRoll * ((W : ℚ) - 2))).toNat + 1
    let ry := (Rat.floor (ryRoll * ((H : ℚ) - 2))).toNat + 1
    if tileAt s.grid rx ry = some Tile.hidden ∨
        tileAt s.grid rx ry = some Tile.revealed then
      { s with items := s.items ++
          [{ x := rx, y := ry, life := itemLifetime, maxLife := itemLifetime }] }
    else s
  else s

/-- One item's update: age it by `dt`; remove it when expired; otherwise
collect it (remove, `+500` score, collection callback) when its Euclidean
distance to the player is below `1.5` — compared via squares, which is
equivalent for nonnegative radii. -/
def itemStep (dt : ℚ) (p : Player) (acc : List Item × Int × Nat)
    (it : Item) : List Item × Int × Nat :=
  let life' := it.life - dt
  if life' ≤ 0 then acc
  else
    let dx : ℚ := (p.x : ℚ) - (it.x : ℚ)
    let dy : ℚ := (p.y : ℚ) - (it.y : ℚ)
    if dx * dx + dy * dy < 9 / 4 then (acc.1, acc.2.1 + 500, acc.2.2 + 1)
    else (acc.1 ++ [{ it with life := life' }], acc.2)

/-- The item update loop (the source iterates with reverse-order
`splice`, which removes exactly the expired and collected items). -/
def updateItems (dt : ℚ) (s : GameState) (ev : TickEvents) :
    GameState × TickEvents :=
  let r := s.items.foldl (itemStep dt s.player) ([], 0, 0)
  ({ s with
      items := r.1
      stats := { s.stats with score := s.stats.score + r.2.1 } },
   { ev with itemCollects := ev.itemCollects + r.2.2 })

/-! ## Player movement (part_003 lines 540-575) -/

/-- The carve operation (the `nextTile === 1` branch): start drawing, turn
the target tile into trail, append it to the Trail Tracker and step onto
it. -/
def carveOp (s : GameState) (nextX nextY : Int) : GameState :=
  { s with
      player := { s.player with
          isDrawing := true
          x := nextX
          y := nextY }
      grid := setTile s.grid nextX.toNat nextY.toNat Tile.trail
      trail := s.trail ++ [(nextX.toNat, nextY.toNat)] }

/-- The closure operation (the `nextTile === 0` branch while drawing):
step onto safe ground, run `fillCapturedArea`, stop drawing and clear the
Trail Tracker; returns the state and the `didCapture` flag. -/
def closureOp (W H : Nat) (now : Int) (s : GameState) (nextX nextY : Int) :
    GameState × Bool :=
  let s1 := { s with player := { s.player with x := nextX, y := nextY } }
  let fr := fillCapturedArea W H s1.grid s1.trail s1.enemies
      s1.combo.count now s1.stats.score
  ({ s1 with
      grid := fr.grid
      stats := { s1.stats with
          score := fr.score
          areaRevealed := fr.areaRevealed }
      combo := { s1.combo with
          count := fr.combo
          lastActionTime := fr.lastActionTime }
      player := { s1.player with
          x := nextX
          y := nextY
          isDrawing := false }
      trail := [] },
   fr.didCapture)

/-- The body of the player-move section of `update`: rate-limited to one
step per 60 ms; a nonzero direction stamps the combo movement time and the
player's `lastMoveTime`; an in-bounds target is handled by tile state:
trail → lethal (when not invulnerable), hidden → carve, revealed → plain
move, or closure when drawing. -/
def movePlayer (W H : Nat) (now : Int) (dir : Int × Int) (isInvuln : Bool)
    (s : GameState) (ev : TickEvents) : GameState × TickEvents :=
  if 60 < now - s.player.lastMoveTime then
    if dir.1 ≠ 0 ∨ dir.2 ≠ 0 then
      let nextX := s.player.x + dir.1
      let nextY := s.player.y + dir.2
      let s := { s with combo := { s.combo with lastMoveTime := now } }
      let moved :=
        if 0 ≤ nextX ∧ nextX < (W : Int) ∧ 0 ≤ nextY ∧ nextY < (H : Int) then
          match tileAtZ s.grid nextX nextY with
          | some Tile.trail =>
              if ¬ isInvuln then handleDeath now s ev else (s, ev)
          | some Tile.hidden => (carveOp s nextX nextY, ev)
          | some Tile.revealed =>
              if s.player.isDrawing then
                let r := closureOp W H now s nextX nextY
                (r.1, { ev with areaCapture := ev.areaCapture || r.2 })
              else
                ({ s with player := { s.player with x := nextX, y := nextY } },
                 ev)
          | none => (s, ev)
        else (s, ev)
      ({ moved.1 with
         player := { moved.1.player with lastMoveTime := now } }, moved.2)
    else (s, ev)
  else (s, ev)

/-! ## Adversary movement (part_003 lines 577-613) -/

/-- One adversary's update: integrate position; flip `vx` when the target
tile column is out of range or the target tile is revealed, flip `vy`
when the target tile row is out of range or the target tile is revealed;
a trail-tile target kills the player (when not invulnerable), as does
proximity (distance below 2, compared via squares) to the player; the
position advances only when neither axis collided. -/
def enemyStep (W H : Nat) (now : Int) (isInvuln : Bool)
    (acc : GameState × TickEvents × List Enemy) (e : Enemy) :
    GameState × TickEvents × List Enemy :=
  let s := acc.1
  let ev := acc.2.1
  let nx := e.x + e.vx
  let ny := e.y + e.vy
  let tx : Int := Rat.floor nx
  let ty : Int := Rat.floor ny
  let hitX : Bool :=
    decide (tx < 0) || decide ((W : Int) ≤ tx) ||
      decide (tileAtZ s.grid tx ty = some Tile.revealed)
  let hitY : Bool :=
    decide (ty < 0) || decide ((H : Int) ≤ ty) ||
      decide (tileAtZ s.grid tx ty = some Tile.revealed)
  let vx' := if hitX then -e.vx else e.vx
  let vy' := if hitY then -e.vy else e.vy
  let collision := hitX || hitY
  let s1ev1 :=
    if ¬ isInvuln ∧ tileAtZ s.grid tx ty = some Tile.trail then
      handleDeath now s ev
    else (s, ev)
  let dx : ℚ := (s1ev1.1.player.x : ℚ) - e.x
  let dy : ℚ := (s1ev1.1.player.y : ℚ) - e.y
  let s2ev2 :=
    if ¬ isInvuln ∧ dx * dx + dy * dy < 4 then
      handleDeath now s1ev1.1 s1ev1.2
    else s1ev1
  let e' : Enemy :=
    { x := if collision then e.x else nx,
      y := if collision then e.y else ny,
      vx := vx', vy := vy' }
  (s2ev2.1, s2ev2.2, acc.2.2 ++ [e'])

/-- The `for (const enemy of enemies)` loop, threading the game state
(deaths mutate it) and rebuilding the enemy list in order. -/
def moveEnemies (W H : Nat) (now : Int) (isInvuln : Bool)
    (s : GameState) (ev : TickEvents) : GameState × TickEvents :=
  let r := s.enemies.foldl (enemyStep W H now isInvuln) (s, ev, [])
  ({ r.1 with enemies := r.2.2 }, r.2.1)

/-! ## The tick (`update`, part_003 lines 448-625) -/

/-- Oracle inputs of one tick: elapsed ms, the tick timestamp, the sampled
direction, and the tick's `Math.random()` draws. -/
structure TickInput where
  dt : Int
  now : Int
  dir : Int × Int
  spawnRoll : ℚ
  rxRoll : ℚ
  ryRoll : ℚ
  statsRoll : ℚ

/-- One simulation tick (`update`).  The invulnerability flag is computed
once, at the top.  Steps in source order: advance elapsed time, combo
checker, item spawn and update, player movement (with possible death or
closure), adversary movement (with possible deaths), throttled stats
callback, and the win check, which fires level-complete with the tick's
stats whenever `areaRevealed ≥ level.minRevealPercent`. -/
def tick (W H : Nat) (level : LevelConfig) (itemLifetime : ℚ)
    (inp : TickInput) (s0 : GameState) : GameState × TickEvents :=
  let isInvuln : Bool := decide (inp.now < s0.player.invulnerableUntil)
  let s := { s0 with stats :=
    { s0.stats with timeElapsed := s0.stats.timeElapsed + (inp.dt : ℚ) / 1000 } }
  let s := { s with combo := comboCheck inp.now s.combo }
  let s := itemSpawn W H itemLifetime inp.spawnRoll inp.rxRoll inp.ryRoll s
  let sev := updateItems (inp.dt : ℚ) s emptyEvents
  let sev := movePlayer W H inp.now inp.dir isInvuln sev.1 sev.2
  let sev := moveEnemies W H inp.now isInvuln sev.1 sev.2
  let s := sev.1
  let ev := sev.2
  let ev := if 9 / 10 < inp.statsRoll then
      { ev with statsUpdate := some s.stats } else ev
  let ev := if level.minRevealPercent ≤ s.stats.areaRevealed then
      { ev with levelComplete := some s.stats } else ev
  (s, ev)

/-- The re-scheduling decision at the end of `gameLoop` (lines 430-432):
a further animation frame (hence a further tick) is requested exactly when
lives remain and `areaRevealed` is below 100. -/
def schedulesNextTick (s : GameState) : Bool :=
  decide (0 < s.player.lives) && decide (s.stats.areaRevealed < 100)

/-! ## Level initialisation (`initGame`, part_003 lines 376-417) -/

/-- The initial grid: border revealed, interior hidden. -/
def initGrid (W H : Nat) : Grid :=
  (List.range H).map fun y => (List.range W).map fun x =>
    if x = 0 ∨ x = W - 1 ∨ y = 0 ∨ y = H - 1 then Tile.revealed
    else Tile.hidden

/-- Enemy spawning from the per-enemy random draws
`(posX, posY, dirX, dirY)`: near the grid centre, with speed scaled by
index. -/
def initEnemies (W H : Nat) (bossSpeed : ℚ) (rands : List (ℚ × ℚ × ℚ × ℚ)) :
    List Enemy :=
  rands.enum.map fun ir =>
    { x := (W : ℚ) / 2 + (ir.2.1 * 10 - 5),
      y := (H : ℚ) / 2 + (ir.2.2.1 * 10 - 5),
      vx := bossSpeed * (if (1 : ℚ) / 2 < ir.2.2.2.1 then 1 else -1) *
        (1 + (ir.1 : ℚ) * (2 / 10)),
      vy := bossSpeed * (if (1 : ℚ) / 2 < ir.2.2.2.2 then 1 else -1) *
        (1 + (ir.1 : ℚ) * (2 / 10)) }

/-- `initGame`: fresh grid, player at the spawn corner with 3 lives,
freshly spawned enemies, and empty items, trail and stats. -/
def initState (W H : Nat) (level : LevelConfig)
    (rands : List (ℚ × ℚ × ℚ × ℚ)) (now : Int) : GameState :=
  { grid := initGrid W H
    player := { x := 0, y := 0, lives := 3, isDrawing := false,
                invulnerableUntil := 0, lastMoveTime := 0 }
    enemies := initEnemies W H level.bossSpeed rands
    items := []
    stats := { areaRevealed := 0, timeElapsed := 0, score := 0 }
    trail := []
    combo := { count := 1, lastActionTime := now, lastMoveTime := now } }

/-! ## Basic grid lemmas -/

theorem tileAt_eq_some_iff {g : Grid} {x y : Nat} {t : Tile} :
    tileAt g x y = some t ↔ ∃ row, g[y]? = some row ∧ row[x]? = some t := by
  simp [tileAt, Option.bind_eq_some]

theorem setTile_length (g : Grid) (x y : Nat) (t : Tile) :
    (setTile g x y t).length = g.length := by
  unfold setTile
  cases h : g[y]? <;> simp

theorem setTile_rows (g : Grid) (x y : Nat) (t : Tile) :
    ∀ y', (setTile g x y t)[y']? =
      if y' = y then (g[y']?).map (fun row => row.set x t) else g[y']? := by
  intro y'
  unfold setTile
  rcases h : g[y]? with _ | row
  · simp only
    split
    · subst y'; simp [h]
    · rfl
  · by_cases hy : y' = y
    · subst y'
      have hlt : y < g.length := by
        by_contra hge
        rw [List.getElem?_eq_none (by omega)] at h
        exact absurd h (by simp)
      simp [hlt, h]
    · simp [hy, List.getElem?_set_ne (by omega : y ≠ y')]

theorem tileAt_setTile_self {g : Grid} {x y : Nat} {t t₀ : Tile}
    (h : tileAt g x y = some t₀) :
    tileAt (setTile g x y t) x y = some t := by
  rcases tileAt_eq_some_iff.mp h with ⟨row, hrow, hx⟩
  have hxlt : x < row.length := by
    by_contra hge
    rw [List.getElem?_eq_none (by omega)] at hx
    exact absurd hx (by simp)
  have := setTile_rows g x y t y
  rw [if_pos rfl, hrow] at this
  simp only [tileAt, this, Option.map_some, Option.bind_some]
  simp [List.getElem?_set_self hxlt]

theorem tileAt_setTile_of_ne {g : Grid} (x y : Nat) (t : Tile) {x' y' : Nat}
    (h : (x', y') ≠ (x, y)) :
    tileAt (setTile g x y t) x' y' = tileAt g x' y' := by
  unfold tileAt
  rw [setTile_rows g x y t y']
  by_cases hy : y' = y
  · subst y'
    have hx : x' ≠ x := by
      intro hx; exact h (by rw [hx])
    rcases hrow : g[y]? with _ | row
    · simp
    · simp [List.getElem?_set_ne (by omega : x ≠ x')]
  · simp [hy]

theorem gridWF_setTile {W H : Nat} {g : Grid} (hwf : gridWF W H g)
    (x y : Nat) (t : Tile) : gridWF W H (setTile g x y t) := by
  obtain ⟨hlen, hrows⟩ := hwf
  constructor
  · rw [setTile_length]; exact hlen
  · intro row hrow
    unfold setTile at hrow
    rcases h : g[y]? with _ | r
    · rw [h] at hrow; exact hrows row hrow
    · rw [h] at hrow
      rcases List.mem_or_eq_of_mem_set hrow with hmem | heq
      · exact hrows row hmem
      · subst heq
        rw [List.length_set]
        exact hrows r (List.getElem?_mem h)

/-- Setting an index to the value it already holds leaves a list
unchanged. -/
theorem list_set_self {α : Type _} {l : List α} {i : Nat} {a : α}
    (h : l[i]? = some a) : l.set i a = l := by
  apply List.ext_getElem?
  intro n
  rw [List.getElem?_set]
  by_cases hn : i = n
  · subst hn
    have hlt : i < l.length := by
      by_contra hge
      rw [List.getElem?_eq_none (by omega)] at h
      exact absurd h (by simp)
    simp [hlt, h.symm]
  · simp [hn]

/-- Tiles other than the revealed one contribute nothing to the revealed
count, so overwriting a non-revealed tile with a non-revealed tile keeps
`countRevealed` unchanged. -/
theorem countRevealed_setTile {g : Grid} {x y : Nat} {t t₀ : Tile}
    (h : tileAt g x y = some t₀) (h₀ : t₀ ≠ Tile.revealed)
    (h₁ : t ≠ Tile.revealed) :
    countRevealed (setTile g x y t) = countRevealed g := by
  rcases tileAt_eq_some_iff.mp h with ⟨row, hrow, hx⟩
  have hxlt : x < row.length := by
    by_contra hge
    rw [List.getElem?_eq_none (by omega)] at hx
    exact absurd hx (by simp)
  unfold setTile
  rw [hrow]
  unfold countRevealed
  rw [List.map_set]
  have hcount : ((row.set x t).countP fun a => decide (a = Tile.revealed)) =
      row.countP fun a => decide (a = Tile.revealed) := by
    rw [List.countP_set _ _ _ _ hxlt]
    have hx0 : row[x] = t₀ := by
      have h' := List.getElem?_eq_getElem hxlt
      rw [hx] at h'
      exact (Option.some_injective _ h'.symm)
    rw [hx0]
    simp [h₀, h₁]
  rw [hcount]
  congr 1
  apply list_set_self
  rw [List.getElem?_map, hrow]
  rfl

/-! ## Grid/trail coherence

The implicit invariant of the engine: a tile is in the `Trail` state
exactly when its coordinate is in the Trail Tracker, and the tracker has
no duplicates.  The formulation below quantifies over the grid's own
enumeration so that it is decidable on concrete states. -/

/-- Every trail-state tile of the grid appears in the trail list. -/
def gridTrailOk (g : Grid) (trail : List Pt) : Prop :=
  ∀ yr ∈ g.enum, ∀ xt ∈ yr.2.enum, xt.2 = Tile.trail → (xt.1, yr.1) ∈ trail

instance (g : Grid) (trail : List Pt) : Decidable (gridTrailOk g trail) := by
  unfold gridTrailOk; infer_instance

/-- The grid/trail coherence invariant: the tracker is duplicate-free,
every tracked coordinate holds a trail tile, and every trail tile is
tracked. -/
def trailCoherent (g : Grid) (trail : List Pt) : Prop :=
  trail.Nodup ∧ (∀ p ∈ trail, tileAt g p.1 p.2 = some Tile.trail) ∧
    gridTrailOk g trail

instance (g : Grid) (trail : List Pt) : Decidable (trailCoherent g trail) := by
  unfold trailCoherent; infer_instance

/-- Under coherence, trail tiles and tracked coordinates agree
pointwise. -/
theorem trailCoherent_mem_iff {g : Grid} {trail : List Pt}
    (h : trailCoherent g trail) (x y : Nat) :
    tileAt g x y = some Tile.trail ↔ (x, y) ∈ trail := by
  obtain ⟨-, hmem, hok⟩ := h
  constructor
  · intro ht
    rcases tileAt_eq_some_iff.mp ht with ⟨row, hrow, hx⟩
    exact hok (y, row) (List.mk_mem_enum_iff_getElem?.mpr hrow) (x, Tile.trail)
      (List.mk_mem_enum_iff_getElem?.mpr hx) rfl
  · intro hp
    exact hmem (x, y) hp

/-! ## Flood-fill: termination and correctness

The declarative counterpart of the stack-based fill: 4-connected
reachability through in-bounds hidden tiles of the working grid. -/

/-- 4-connectedness of two tiles (formulated without `Nat` subtraction). -/
def adjPt (a b : Pt) : Prop :=
  (a.2 = b.2 ∧ (b.1 = a.1 + 1 ∨ a.1 = b.1 + 1)) ∨
  (a.1 = b.1 ∧ (b.2 = a.2 + 1 ∨ a.2 = b.2 + 1))

/-- One admissible step of the fill: move to an adjacent, in-bounds,
hidden tile of the working grid. -/
def fillStep (W H : Nat) (g : Grid) (a b : Pt) : Prop :=
  adjPt a b ∧ b.1 < W ∧ b.2 < H ∧ tileAt g b.1 b.2 = some Tile.hidden

/-- Reachability along admissible fill steps. -/
def Reach (W H : Nat) (g : Grid) (s p : Pt) : Prop :=
  Relation.ReflTransGen (fillStep W H g) s p

/-- All in-bounds tile coordinates, as a finset. -/
def boundedPts (W H : Nat) : Finset Pt := Finset.range W ×ˢ Finset.range H

theorem mem_boundedPts {W H : Nat} {p : Pt} :
    p ∈ boundedPts W H ↔ p.1 < W ∧ p.2 < H := by
  cases p
  simp [boundedPts, Finset.mem_product]

theorem boundedPts_card (W H : Nat) : (boundedPts W H).card = W * H := by
  rw [boundedPts, Finset.card_product, Finset.card_range, Finset.card_range]

/-- Decreasing measure of the worklist loop: twice the number of
never-visited tiles plus the stack height. -/
def floodMeasure (W H : Nat) (v : Finset Pt) (stack : List Pt) : Nat :=
  2 * (W * H - v.card) + stack.length

/-- What `pushNbr` may push for a candidate `n`, independent of the
visited set: `n` is in bounds, names `q`, and `q` is hidden. -/
def pushCand (W H : Nat) (g : Grid) (n : Int × Int) (q : Pt) : Prop :=
  0 ≤ n.1 ∧ n.1 < (W : Int) ∧ 0 ≤ n.2 ∧ n.2 < (H : Int) ∧
  q = (n.1.toNat, n.2.toNat) ∧ tileAt g q.1 q.2 = some Tile.hidden

/-- Case analysis for a single `pushNbr` application: it either leaves the
accumulator unchanged or pushes exactly one new admissible point. -/
theorem pushNbr_cases (W H : Nat) (g : Grid) (acc : Finset Pt × List Pt)
    (n : Int × Int) :
    pushNbr W H g acc n = acc ∨
    ∃ q, pushCand W H g n q ∧ q ∉ acc.1 ∧
      pushNbr W H g acc n = (insert q acc.1, q :: acc.2) := by
  unfold pushNbr
  split
  · rename_i hb
    dsimp only
    split
    · rename_i hq
      right
      refine ⟨_, ?_, hq.2, rfl⟩
      exact ⟨hb.1, hb.2.1, hb.2.2.1, hb.2.2.2, rfl, hq.1⟩
    · left; rfl
  · left; rfl

/-- `pushNbr` certainly visits every admissible candidate point. -/
theorem pushNbr_complete (W H : Nat) (g : Grid) (acc : Finset Pt × List Pt)
    (n : Int × Int) (q : Pt) (hc : pushCand W H g n q) :
    q ∈ (pushNbr W H g acc n).1 ∨ q ∈ acc.1 := by
  obtain ⟨h1, h2, h3, h4, hq, ht⟩ := hc
  unfold pushNbr
  rw [if_pos ⟨h1, h2, h3, h4⟩]
  dsimp only
  subst hq
  split
  · left; exact Finset.mem_insert_self _ _
  · rename_i hcond
    right
    by_contra hnot
    exact hcond ⟨ht, hnot⟩

theorem foldl_pushNbr_mono (W H : Nat) (g : Grid) :
    ∀ (ns : List (Int × Int)) (acc : Finset Pt × List Pt),
    acc.1 ⊆ (ns.foldl (pushNbr W H g) acc).1 := by
  intro ns
  induction ns with
  | nil => intro acc; exact subset_rfl
  | cons n ns ih =>
    intro acc
    refine subset_trans ?_ (ih (pushNbr W H g acc n))
    rcases pushNbr_cases W H g acc n with h | ⟨q, -, -, h⟩
    · rw [h]
    · rw [h]; exact Finset.subset_insert _ _

theorem foldl_pushNbr_sub (W H : Nat) (g : Grid) :
    ∀ (ns : List (Int × Int)) (acc : Finset Pt × List Pt),
    acc.1 ⊆ boundedPts W H →
    (ns.foldl (pushNbr W H g) acc).1 ⊆ boundedPts W H := by
  intro ns
  induction ns with
  | nil => intro acc h; exact h
  | cons n ns ih =>
    intro acc h
    refine ih (pushNbr W H g acc n) ?_
    rcases pushNbr_cases W H g acc n with heq | ⟨q, hc, -, heq⟩
    · rw [heq]; exact h
    · rw [heq]
      refine Finset.insert_subset ?_ h
      obtain ⟨h1, h2, h3, h4, hq, -⟩ := hc
      rw [hq, mem_boundedPts]
      constructor <;> omega

theorem foldl_pushNbr_measure (W H : Nat) (g : Grid) :
    ∀ (ns : List (Int × Int)) (acc : Finset Pt × List Pt),
    acc.1 ⊆ boundedPts W H →
    floodMeasure W H (ns.foldl (pushNbr W H g) acc).1
        (ns.foldl (pushNbr W H g) acc).2 ≤
      floodMeasure W H acc.1 acc.2 := by
  intro ns
  induction ns with
  | nil => intro acc _; exact le_rfl
  | cons n ns ih =>
    intro acc h
    have hsub : (pushNbr W H g acc n).1 ⊆ boundedPts W H := by
      rcases pushNbr_cases W H g acc n with heq | ⟨q, hc, -, heq⟩
      · rw [heq]; exact h
      · rw [heq]
        refine Finset.insert_subset ?_ h
        obtain ⟨h1, h2, h3, h4, hq, -⟩ := hc
        rw [hq, mem_boundedPts]
        constructor <;> omega
    refine le_trans (ih (pushNbr W H g acc n) hsub) ?_
    rcases pushNbr_cases W H g acc n with heq | ⟨q, hc, hnot, heq⟩
    · rw [heq]
    · rw [heq]
      have hcard : (insert q acc.1).card = acc.1.card + 1 :=
        Finset.card_insert_of_not_mem hnot
      have hle : (insert q acc.1).card ≤ W * H := by
        rw [← boundedPts_card W H]
        refine Finset.card_le_card ?_
        rw [heq] at hsub
        exact hsub
      unfold floodMeasure
      simp only [List.length_cons, hcard]
      omega

theorem foldl_pushNbr_stack_mono (W H : Nat) (g : Grid) :
    ∀ (ns : List (Int × Int)) (acc : Finset Pt × List Pt),
    ∀ q ∈ acc.2, q ∈ (ns.foldl (pushNbr W H g) acc).2 := by
  intro ns
  induction ns with
  | nil => intro acc q h; exact h
  | cons n ns ih =>
    intro acc q h
    refine ih (pushNbr W H g acc n) q ?_
    rcases pushNbr_cases W H g acc n with heq | ⟨r, -, -, heq⟩
    · rw [heq]; exact h
    · rw [heq]; exact List.mem_cons_of_mem _ h

/-- New stack entries of the neighbour fold come from candidates. -/
theorem foldl_pushNbr_stack_src (W H : Nat) (g : Grid) :
    ∀ (ns : List (Int × Int)) (acc : Finset Pt × List Pt),
    ∀ q ∈ (ns.foldl (pushNbr W H g) acc).2,
      q ∈ acc.2 ∨ ∃ n ∈ ns, pushCand W H g n q := by
  intro ns
  induction ns with
  | nil => intro acc q h; exact Or.inl h
  | cons n ns ih =>
    intro acc q h
    rcases ih (pushNbr W H g acc n) q h with h' | ⟨m, hm, hc⟩
    · rcases pushNbr_cases W H g acc n with heq | ⟨r, hc, -, heq⟩
      · rw [heq] at h'; exact Or.inl h'
      · rw [heq] at h'
        rcases List.mem_cons.mp h' with rfl | h''
        · exact Or.inr ⟨n, List.mem_cons_self _ _, hc⟩
        · exact Or.inl h''
    · exact Or.inr ⟨m, List.mem_cons_of_mem _ hm, hc⟩

/-- New visited entries of the neighbour fold come from candidates. -/
theorem foldl_pushNbr_visited_src (W H : Nat) (g : Grid) :
    ∀ (ns : List (Int × Int)) (acc : Finset Pt × List Pt),
    ∀ q ∈ (ns.foldl (pushNbr W H g) acc).1,
      q ∈ acc.1 ∨ ∃ n ∈ ns, pushCand W H g n q := by
  intro ns
  induction ns with
  | nil => intro acc q h; exact Or.inl h
  | cons n ns ih =>
    intro acc q h
    rcases ih (pushNbr W H g acc n) q h with h' | ⟨m, hm, hc⟩
    · rcases pushNbr_cases W H g acc n with heq | ⟨r, hc, -, heq⟩
      · rw [heq] at h'; exact Or.inl h'
      · rw [heq] at h'
        rcases Finset.mem_insert.mp h' with rfl | h''
        · exact Or.inr ⟨n, List.mem_cons_self _ _, hc⟩
        · exact Or.inl h''
    · exact Or.inr ⟨m, List.mem_cons_of_mem _ hm, hc⟩

/-- Every admissible candidate of the processed list ends up visited. -/
theorem foldl_pushNbr_complete (W H : Nat) (g : Grid) :
    ∀ (ns : List (Int × Int)) (acc : Finset Pt × List Pt),
    ∀ n ∈ ns, ∀ q, pushCand W H g n q → q ∈ acc.1 →
      q ∈ (ns.foldl (pushNbr W H g) acc).1 := by
  intro ns acc n hn q _ hq
  exact foldl_pushNbr_mono W H g ns acc hq

/-- Every admissible candidate of the processed list is visited by the
fold, whether or not it was visited before. -/
theorem foldl_pushNbr_covers (W H : Nat) (g : Grid) :
    ∀ (ns : List (Int × Int)) (acc : Finset Pt × List Pt),
    ∀ n ∈ ns, ∀ q, pushCand W H g n q →
      q ∈ (ns.foldl (pushNbr W H g) acc).1 := by
  intro ns
  induction ns with
  | nil => intro acc n hn; exact absurd hn (List.not_mem_nil n)
  | cons m ns ih =>
    intro acc n hn q hc
    rcases List.mem_cons.mp hn with rfl | hn'
    · rcases pushNbr_complete W H g acc n q hc with h | h
      · exact foldl_pushNbr_mono W H g ns _ h
      · exact foldl_pushNbr_mono W H g ns _
          (by
            rcases pushNbr_cases W H g acc n with heq | ⟨r, -, -, heq⟩
            · rw [heq]; exact h
            · rw [heq]; exact Finset.mem_insert_of_mem h)
    · exact ih (pushNbr W H g acc m) n hn' q hc

/-- New visited entries of the neighbour fold are placed on the stack. -/
theorem foldl_pushNbr_new_on_stack (W H : Nat) (g : Grid) :
    ∀ (ns : List (Int × Int)) (acc : Finset Pt × List Pt),
    ∀ q ∈ (ns.foldl (pushNbr W H g) acc).1,
      q ∈ acc.1 ∨ q ∈ (ns.foldl (pushNbr W H g) acc).2 := by
  intro ns
  induction ns with
  | nil => intro acc q h; exact Or.inl h
  | cons n ns ih =>
    intro acc q h
    rcases ih (pushNbr W H g acc n) q h with h' | h'
    · rcases pushNbr_cases W H g acc n with heq | ⟨r, -, -, heq⟩
      · rw [heq] at h'; exact Or.inl h'
      · rw [heq] at h'
        rcases Finset.mem_insert.mp h' with rfl | h''
        · right
          refine foldl_pushNbr_stack_mono W H g ns _ q ?_
          rw [heq]
          exact List.mem_cons_self _ _
        · exact Or.inl h''
    · exact Or.inr h'

/-- The four neighbour candidates of `p` describe exactly the admissible
fill steps out of `p`. -/
theorem fillStep_iff_cand (W H : Nat) (g : Grid) (p q : Pt) :
    fillStep W H g p q ↔ ∃ n ∈ nbrs p, pushCand W H g n q := by
  constructor
  · rintro ⟨hadj, hqW, hqH, ht⟩
    rcases hadj with ⟨hy, hx | hx⟩ | ⟨hx, hy | hy⟩
    · refine ⟨((p.1 : Int) + 1, (p.2 : Int)), ?_, ?_⟩
      · simp [nbrs]
      · refine ⟨by omega, by omega, by omega, by omega, ?_, ht⟩
        cases q; simp_all
    · refine ⟨((p.1 : Int) - 1, (p.2 : Int)), ?_, ?_⟩
      · simp [nbrs]
      · refine ⟨by omega, by omega, by omega, by omega, ?_, ht⟩
        cases q; simp_all
    · refine ⟨((p.1 : Int), (p.2 : Int) + 1), ?_, ?_⟩
      · simp [nbrs]
      · refine ⟨by omega, by omega, by omega, by omega, ?_, ht⟩
        cases q; simp_all
    · refine ⟨((p.1 : Int), (p.2 : Int) - 1), ?_, ?_⟩
      · simp [nbrs]
      · refine ⟨by omega, by omega, by omega, by omega, ?_, ht⟩
        cases q; simp_all
  · rintro ⟨n, hn, h1, h2, h3, h4, hq, ht⟩
    have hq1 : q.1 = n.1.toNat := by rw [hq]
    have hq2 : q.2 = n.2.toNat := by rw [hq]
    refine ⟨?_, by omega, by omega, ht⟩
    simp only [nbrs, List.mem_cons, List.not_mem_nil, or_false] at hn
    unfold adjPt
    rcases hn with rfl | rfl | rfl | rfl
    · left; constructor <;> omega
    · left; constructor <;> omega
    · right; constructor <;> omega
    · right; constructor <;> omega

/-- The visited set never shrinks along the worklist loop. -/
theorem floodLoop_visited_mono (W H : Nat) (g : Grid) :
    ∀ (fuel : Nat) (v : Finset Pt) (stack : List Pt),
    v ⊆ (floodLoop W H g fuel v stack).1 := by
  intro fuel
  induction fuel with
  | zero => intro v stack; exact subset_rfl
  | succ fuel ih =>
    intro v stack
    cases stack with
    | nil => exact subset_rfl
    | cons p rest =>
      rw [floodLoop]
      exact subset_trans (foldl_pushNbr_mono W H g (nbrs p) (v, rest)) (ih _ _)

/-- The visited set stays within the in-bounds tiles. -/
theorem floodLoop_sub (W H : Nat) (g : Grid) :
    ∀ (fuel : Nat) (v : Finset Pt) (stack : List Pt),
    v ⊆ boundedPts W H → (floodLoop W H g fuel v stack).1 ⊆ boundedPts W H := by
  intro fuel
  induction fuel with
  | zero => intro v stack h; exact h
  | succ fuel ih =>
    intro v stack h
    cases stack with
    | nil => exact h
    | cons p rest =>
      rw [floodLoop]
      exact ih _ _ (foldl_pushNbr_sub W H g (nbrs p) (v, rest) h)

/-- Termination: with fuel at least the measure, the loop drains its
stack. -/
theorem floodLoop_drains (W H : Nat) (g : Grid) :
    ∀ (fuel : Nat) (v : Finset Pt) (stack : List Pt),
    v ⊆ boundedPts W H → floodMeasure W H v stack ≤ fuel →
    (floodLoop W H g fuel v stack).2 = [] := by
  intro fuel
  induction fuel with
  | zero =>
    intro v stack _ hm
    have : stack.length = 0 := by
      unfold floodMeasure at hm; omega
    rw [List.length_eq_zero.mp this]
    rfl
  | succ fuel ih =>
    intro v stack hsub hm
    cases stack with
    | nil => rfl
    | cons p rest =>
      rw [floodLoop]
      refine ih _ _ (foldl_pushNbr_sub W H g (nbrs p) (v, rest) hsub) ?_
      have hstep := foldl_pushNbr_measure W H g (nbrs p) (v, rest) hsub
      dsimp only at hstep
      have hcons : floodMeasure W H v (p :: rest) = floodMeasure W H v rest + 1 := by
        unfold floodMeasure
        simp only [List.length_cons]
        omega
      omega

/-- Soundness: everything the loop visits was already visited or is
reachable from a stack entry's reachability source `S`. -/
theorem floodLoop_sound (W H : Nat) (g : Grid) (V0 : Finset Pt) (S : Pt) :
    ∀ (fuel : Nat) (v : Finset Pt) (stack : List Pt),
    (∀ q ∈ v, q ∈ V0 ∨ Reach W H g S q) →
    (∀ q ∈ stack, Reach W H g S q) →
    ∀ q ∈ (floodLoop W H g fuel v stack).1, q ∈ V0 ∨ Reach W H g S q := by
  intro fuel
  induction fuel with
  | zero => intro v stack hv _ q hq; exact hv q hq
  | succ fuel ih =>
    intro v stack hv hstack
    cases stack with
    | nil => exact fun q hq => hv q hq
    | cons p rest =>
      rw [floodLoop]
      have hp : Reach W H g S p := hstack p (List.mem_cons_self _ _)
      refine ih _ _ ?_ ?_
      · intro q hq
        rcases foldl_pushNbr_visited_src W H g (nbrs p) (v, rest) q hq with
          h | ⟨n, hn, hc⟩
        · exact hv q h
        · right
          exact Relation.ReflTransGen.tail hp
            ((fillStep_iff_cand W H g p q).mpr ⟨n, hn, hc⟩)
      · intro q hq
        rcases foldl_pushNbr_stack_src W H g (nbrs p) (v, rest) q hq with
          h | ⟨n, hn, hc⟩
        · exact hstack q (List.mem_cons_of_mem _ h)
        · exact Relation.ReflTransGen.tail hp
            ((fillStep_iff_cand W H g p q).mpr ⟨n, hn, hc⟩)

/-- The loop invariant of completeness: every visited tile has all its
admissible successors visited, unless it still waits on the stack. -/
def ClosedState (W H : Nat) (g : Grid) (v : Finset Pt) (stack : List Pt) :
    Prop :=
  ∀ q ∈ v, ∀ r, fillStep W H g q r → r ∈ v ∨ q ∈ stack

theorem floodLoop_closed (W H : Nat) (g : Grid) :
    ∀ (fuel : Nat) (v : Finset Pt) (stack : List Pt),
    ClosedState W H g v stack →
    ClosedState W H g (floodLoop W H g fuel v stack).1
      (floodLoop W H g fuel v stack).2 := by
  intro fuel
  induction fuel with
  | zero => intro v stack h; exact h
  | succ fuel ih =>
    intro v stack h
    cases stack with
    | nil => exact h
    | cons p rest =>
      rw [floodLoop]
      refine ih _ _ ?_
      intro q hq r hr
      rcases foldl_pushNbr_new_on_stack W H g (nbrs p) (v, rest) q hq with
        hqv | hqs
      · rcases h q hqv r hr with hrv | hqstack
        · exact Or.inl (foldl_pushNbr_mono W H g (nbrs p) (v, rest) hrv)
        · rcases List.mem_cons.mp hqstack with rfl | hqrest
          · left
            rcases (fillStep_iff_cand W H g q r).mp hr with ⟨n, hn, hc⟩
            exact foldl_pushNbr_covers W H g (nbrs q) (v, rest) n hn r hc
          · exact Or.inr (foldl_pushNbr_stack_mono W H g (nbrs p) (v, rest) q hqrest)
      · exact Or.inr hqs

/-- A closed visited set with an empty stack absorbs everything reachable
from any of its members. -/
theorem reach_mem_of_closed {W H : Nat} {g : Grid} {v : Finset Pt}
    (hC : ClosedState W H g v []) {s p : Pt} (hs : s ∈ v)
    (hr : Reach W H g s p) : p ∈ v := by
  induction hr with
  | refl => exact hs
  | tail _ hbc ih =>
    rcases hC _ ih _ hbc with h | h
    · exact h
    · exact absurd h (List.not_mem_nil _)

/-- The spec-side notion of protection: an adversary whose containing tile
is in bounds and not revealed protects every tile it can reach through
hidden tiles of the working grid. -/
def enemyProtects (W H : Nat) (g : Grid) (e : Enemy) (p : Pt) : Prop :=
  0 ≤ (enemyStart e).1 ∧ (enemyStart e).1 < (W : Int) ∧
  0 ≤ (enemyStart e).2 ∧ (enemyStart e).2 < (H : Int) ∧
  tileAt g (enemyStart e).1.toNat (enemyStart e).2.toNat ≠ some Tile.revealed ∧
  Reach W H g ((enemyStart e).1.toNat, (enemyStart e).2.toNat) p

/-- Main induction for `runEnemies`: the accumulated visited set stays in
bounds and fill-closed, the `completed` flag is preserved, and the visited
set is characterised as the old one plus everything protected by the
processed adversaries. -/
theorem runEnemiesAux (W H : Nat) (g : Grid) :
    ∀ (es : List Enemy) (out : FloodOut),
    out.visited ⊆ boundedPts W H →
    ClosedState W H g out.visited [] →
    (es.foldl (enemyFill W H g) out).visited ⊆ boundedPts W H ∧
    ClosedState W H g (es.foldl (enemyFill W H g) out).visited [] ∧
    (es.foldl (enemyFill W H g) out).completed = out.completed ∧
    (∀ p, p ∈ (es.foldl (enemyFill W H g) out).visited ↔
      p ∈ out.visited ∨ ∃ e ∈ es, enemyProtects W H g e p) := by
  intro es
  induction es with
  | nil =>
    intro out hB hC
    refine ⟨hB, hC, rfl, ?_⟩
    intro p
    simp
  | cons e es ih =>
    intro out hB hC
    rw [List.foldl_cons]
    by_cases h1 : (enemyStart e).1 < 0 ∨ (W : Int) ≤ (enemyStart e).1 ∨
        (enemyStart e).2 < 0 ∨ (H : Int) ≤ (enemyStart e).2
    · have hf : enemyFill W H g out e = out := by
        unfold enemyFill
        rw [if_pos h1]
      rw [hf]
      obtain ⟨hB', hC', hcomp, hiff⟩ := ih out hB hC
      refine ⟨hB', hC', hcomp, ?_⟩
      intro p
      have hne : ¬ enemyProtects W H g e p := by
        rintro ⟨a, b, c, d, -, -⟩
        rcases h1 with h | h | h | h <;> omega
      rw [hiff p]
      constructor
      · rintro (h | ⟨e', he', hp⟩)
        · exact Or.inl h
        · exact Or.inr ⟨e', List.mem_cons_of_mem _ he', hp⟩
      · rintro (h | ⟨e', he', hp⟩)
        · exact Or.inl h
        · rcases List.mem_cons.mp he' with rfl | he''
          · exact absurd hp hne
          · exact Or.inr ⟨e', he'', hp⟩
    · have hq1 : (0 : Int) ≤ (enemyStart e).1 := by omega
      have hq2 : (enemyStart e).1 < (W : Int) := by omega
      have hq3 : (0 : Int) ≤ (enemyStart e).2 := by omega
      have hq4 : (enemyStart e).2 < (H : Int) := by omega
      by_cases h2 : tileAt g (enemyStart e).1.toNat (enemyStart e).2.toNat =
          some Tile.revealed
      · have hf : enemyFill W H g out e = out := by
          unfold enemyFill
          rw [if_neg h1]
          dsimp only
          rw [if_pos h2]
        rw [hf]
        obtain ⟨hB', hC', hcomp, hiff⟩ := ih out hB hC
        refine ⟨hB', hC', hcomp, ?_⟩
        intro p
        have hne : ¬ enemyProtects W H g e p := by
          rintro ⟨-, -, -, -, hrev, -⟩
          exact hrev h2
        rw [hiff p]
        constructor
        · rintro (h | ⟨e', he', hp⟩)
          · exact Or.inl h
          · exact Or.inr ⟨e', List.mem_cons_of_mem _ he', hp⟩
        · rintro (h | ⟨e', he', hp⟩)
          · exact Or.inl h
          · rcases List.mem_cons.mp he' with rfl | he''
            · exact absurd hp hne
            · exact Or.inr ⟨e', he'', hp⟩
      · by_cases h3 : ((enemyStart e).1.toNat, (enemyStart e).2.toNat) ∈
            out.visited
        · have hf : enemyFill W H g out e = out := by
            unfold enemyFill
            rw [if_neg h1]
            dsimp only
            rw [if_neg h2, if_pos h3]
          rw [hf]
          obtain ⟨hB', hC', hcomp, hiff⟩ := ih out hB hC
          refine ⟨hB', hC', hcomp, ?_⟩
          intro p
          rw [hiff p]
          constructor
          · rintro (h | ⟨e', he', hp⟩)
            · exact Or.inl h
            · exact Or.inr ⟨e', List.mem_cons_of_mem _ he', hp⟩
          · rintro (h | ⟨e', he', hp⟩)
            · exact Or.inl h
            · rcases List.mem_cons.mp he' with rfl | he''
              · left
                exact reach_mem_of_closed hC h3 hp.2.2.2.2.2
              · exact Or.inr ⟨e', he'', hp⟩
        · set q : Pt := ((enemyStart e).1.toNat, (enemyStart e).2.toNat)
            with hqdef
          set r := floodLoop W H g (floodFuel W H) (insert q out.visited) [q]
            with hrdef
          have hf : enemyFill W H g out e =
              ⟨r.1, out.completed && r.2.isEmpty⟩ := by
            unfold enemyFill
            rw [if_neg h1]
            dsimp only
            rw [if_neg h2, if_neg h3]
          have hqB : q ∈ boundedPts W H := by
            rw [hqdef, mem_boundedPts]
            constructor <;> omega
          have hB1 : insert q out.visited ⊆ boundedPts W H :=
            Finset.insert_subset hqB hB
          have hdrain : r.2 = [] := by
            rw [hrdef]
            refine floodLoop_drains W H g _ _ _ hB1 ?_
            unfold floodMeasure floodFuel
            simp only [List.length_singleton]
            omega
          have hC1 : ClosedState W H g (insert q out.visited) [q] := by
            intro x hx r' hr'
            rcases Finset.mem_insert.mp hx with rfl | hx'
            · exact Or.inr (List.mem_singleton_self _)
            · rcases hC x hx' r' hr' with h | h
              · exact Or.inl (Finset.mem_insert_of_mem h)
              · exact absurd h (List.not_mem_nil _)
          have hC2 : ClosedState W H g r.1 [] := by
            have := floodLoop_closed W H g (floodFuel W H)
              (insert q out.visited) [q] hC1
            rw [← hrdef] at this
            rw [hdrain] at this
            exact this
          have hB2 : r.1 ⊆ boundedPts W H := by
            rw [hrdef]
            exact floodLoop_sub W H g _ _ _ hB1
          have hchar : ∀ p, p ∈ r.1 ↔ p ∈ out.visited ∨ Reach W H g q p := by
            intro p
            constructor
            · intro hp
              refine floodLoop_sound W H g out.visited q (floodFuel W H)
                (insert q out.visited) [q] ?_ ?_ p ?_
              · intro x hx
                rcases Finset.mem_insert.mp hx with rfl | hx'
                · exact Or.inr Relation.ReflTransGen.refl
                · exact Or.inl hx'
              · intro x hx
                rw [List.mem_singleton.mp hx]
                exact Relation.ReflTransGen.refl
              · rw [← hrdef]
                exact hp
            · rintro (hp | hp)
              · refine floodLoop_visited_mono W H g _ _ _ ?_
                exact Finset.mem_insert_of_mem hp
              · refine reach_mem_of_closed hC2 ?_ hp
                refine floodLoop_visited_mono W H g _ _ _ ?_
                exact Finset.mem_insert_self _ _
          have hout' : (⟨r.1, out.completed && r.2.isEmpty⟩ : FloodOut).visited
              = r.1 := rfl
          obtain ⟨hB', hC', hcomp, hiff⟩ :=
            ih ⟨r.1, out.completed && r.2.isEmpty⟩ hB2 hC2
          rw [hf]
          refine ⟨hB', hC', ?_, ?_⟩
          · rw [hcomp, hdrain]
            simp
          · intro p
            rw [hiff p]
            simp only [hout']
            rw [hchar p]
            constructor
            · rintro ((h | h) | ⟨e', he', hp⟩)
              · exact Or.inl h
              · refine Or.inr ⟨e, List.mem_cons_self _ _, ?_⟩
                exact ⟨hq1, hq2, hq3, hq4, h2, h⟩
              · exact Or.inr ⟨e', List.mem_cons_of_mem _ he', hp⟩
            · rintro (h | ⟨e', he', hp⟩)
              · exact Or.inl (Or.inl h)
              · rcases List.mem_cons.mp he' with rfl | he''
                · exact Or.inl (Or.inr hp.2.2.2.2.2)
                · exact Or.inr ⟨e', he'', hp⟩

/-- The visited set computed by the per-adversary flood fills is exactly
the set of tiles protected by some adversary. -/
theorem runEnemies_visited_iff (W H : Nat) (g : Grid) (es : List Enemy)
    (p : Pt) :
    p ∈ (runEnemies W H g es).visited ↔ ∃ e ∈ es, enemyProtects W H g e p := by
  have haux := runEnemiesAux W H g es ⟨∅, true⟩
    (by intro x hx; exact absurd hx (Finset.not_mem_empty x))
    (by intro x hx; exact absurd hx (Finset.not_mem_empty x))
  rw [runEnemies]
  rw [haux.2.2.2 p]
  simp

/-- Every per-adversary worklist loop exits because its stack drained:
`floodFuel` iterations always suffice, on every grid and every adversary
configuration. -/
theorem runEnemies_completed_aux (W H : Nat) (g : Grid) (es : List Enemy) :
    (runEnemies W H g es).completed = true := by
  have haux := runEnemiesAux W H g es ⟨∅, true⟩
    (by intro x hx; exact absurd hx (Finset.not_mem_empty x))
    (by intro x hx; exact absurd hx (Finset.not_mem_empty x))
  rw [runEnemies]
  exact haux.2.2.1

/-! ## The grid sweep, pointwise -/

theorem tileAt_postGrid (v : Finset Pt) (g : Grid) (x y : Nat) :
    tileAt (postGrid v g) x y = (tileAt g x y).map (postTile v x y) := by
  unfold tileAt postGrid
  rw [List.getElem?_mapIdx]
  cases g[y]? with
  | none => rfl
  | some row =>
      simp only [Option.map_some', Option.some_bind, List.getElem?_mapIdx]

theorem gridWF_postGrid {W H : Nat} {g : Grid} (h : gridWF W H g)
    (v : Finset Pt) : gridWF W H (postGrid v g) := by
  obtain ⟨hlen, hrows⟩ := h
  constructor
  · rw [postGrid, List.length_mapIdx]
    exact hlen
  · intro row hrow
    rcases List.mem_iff_getElem?.mp hrow with ⟨i, hi⟩
    rw [postGrid, List.getElem?_mapIdx] at hi
    rcases Option.map_eq_some.mp hi with ⟨row₀, hrow₀, heq⟩
    rw [← heq, List.length_mapIdx]
    exact hrows row₀ (List.getElem?_mem hrow₀)

/-- Sums respect pairwise dominance. -/
theorem sum_le_of_forall₂ :
    ∀ {l₁ l₂ : List Nat}, List.Forall₂ (· ≤ ·) l₁ l₂ → l₁.sum ≤ l₂.sum := by
  intro l₁ l₂ h
  induction h with
  | nil => exact le_rfl
  | cons hab _ ih =>
      simp only [List.sum_cons]
      omega

/-- Pointwise implication of predicates bounds `countP` across two lists
of the same length. -/
theorem countP_le_pointwise {α β : Type _} (p : α → Bool) (q : β → Bool) :
    ∀ (l₁ : List α) (l₂ : List β), l₁.length = l₂.length →
    (∀ i (h₁ : i < l₁.length) (h₂ : i < l₂.length),
      p l₁[i] = true → q l₂[i] = true) →
    l₁.countP p ≤ l₂.countP q := by
  intro l₁
  induction l₁ with
  | nil => intro l₂ _ _; simp
  | cons a l₁ ih =>
    intro l₂ hlen hpt
    cases l₂ with
    | nil => simp at hlen
    | cons b l₂ =>
      rw [List.countP_cons, List.countP_cons]
      have hab := hpt 0 (by simp) (by simp)
      simp only [List.getElem_cons_zero] at hab
      have htail : l₁.countP p ≤ l₂.countP q := by
        refine ih l₂ (by simpa using hlen) ?_
        intro i h₁ h₂ hp
        have := hpt (i + 1) (by simpa using h₁) (by simpa using h₂)
        simpa using this hp
      by_cases hpa : p a = true
      · rw [if_pos hpa, if_pos (hab hpa)]
        omega
      · rw [if_neg hpa]
        split <;> omega

/-- The sweep only adds revealed tiles, so the revealed count never
drops. -/
theorem countRevealed_le_postGrid (v : Finset Pt) (g : Grid) :
    countRevealed g ≤ countRevealed (postGrid v g) := by
  unfold countRevealed
  refine sum_le_of_forall₂ ?_
  rw [List.forall₂_iff_get]
  constructor
  · simp [postGrid]
  · intro i h₁ h₂
    have hg : i < g.length := by simpa using h₁
    have hpg : i < (postGrid v g).length := by simpa using h₂
    have key : (g.get ⟨i, hg⟩).countP
          (fun t => decide (t = Tile.revealed)) ≤
        ((postGrid v g).get ⟨i, hpg⟩).countP
          (fun t => decide (t = Tile.revealed)) := by
      have hrow : (postGrid v g).get ⟨i, hpg⟩ =
          (g.get ⟨i, hg⟩).mapIdx (fun x t => postTile v x i t) := by
        simp [postGrid]
      rw [hrow]
      refine countP_le_pointwise _ _ _ _ (by simp) ?_
      intro j hj₁ hj₂ hp
      rw [List.getElem_mapIdx]
      have hjr : (g.get ⟨i, hg⟩)[j] = Tile.revealed := by
        simpa using hp
      rw [hjr]
      simp [postTile]
    simpa using key

/-- Summing a constant over the satisfying entries is the constant times
the count. -/
theorem sum_ite_eq_mul_countP {α : Type _} (p : α → Prop) [DecidablePred p]
    (c : Int) (l : List α) :
    (l.map fun a => if p a then c else 0).sum =
      c * (l.countP fun a => decide (p a)) := by
  induction l with
  | nil => simp
  | cons a l ih =>
    rw [List.map_cons, List.sum_cons, List.countP_cons, ih]
    by_cases hp : p a
    · rw [if_pos hp]
      have hd : (if decide (p a) = true then 1 else 0) = 1 := by simp [hp]
      rw [hd]
      push_cast
      ring
    · rw [if_neg hp]
      have hd : (if decide (p a) = true then 1 else 0) = 0 := by simp [hp]
      rw [hd]
      simp

theorem sum_map_mul_left {α : Type _} (c : Int) (f : α → Int) (l : List α) :
    (l.map fun a => c * f a).sum = c * (l.map f).sum := by
  induction l with
  | nil => simp
  | cons a l ih =>
    rw [List.map_cons, List.sum_cons, List.map_cons, List.sum_cons, ih,
      mul_add]

/-- The per-tile score additions of the sweep total
`10 * combo * capturedCount`. -/
theorem sweepScore_eq (v : Finset Pt) (combo : Nat) (g : Grid) :
    sweepScore v combo g = 10 * (combo : Int) * (capturedCount v g : Int) := by
  unfold sweepScore capturedCount
  have hinner : ∀ yr : Nat × List Tile,
      (yr.2.enum.map fun xt =>
        if capturedCell v xt.1 yr.1 xt.2 then (10 * combo : Int) else 0).sum =
      10 * (combo : Int) *
        ((yr.2.enum.countP fun xt =>
          decide (capturedCell v xt.1 yr.1 xt.2) : Nat) : Int) := by
    intro yr
    exact sum_ite_eq_mul_countP _ _ _
  rw [List.map_congr_left fun yr _ => hinner yr]
  rw [sum_map_mul_left]
  congr 1
  rw [Nat.cast_list_sum, List.map_map]
  rfl

/-! ## Lemmas on `setAll`, `tempGridOf` and `postGrid` -/

theorem setTile_of_tileAt_none {g : Grid} {x y : Nat} (h : tileAt g x y = none)
    (t : Tile) : setTile g x y t = g := by
  unfold setTile
  rcases hrow : g[y]? with _ | row
  · rfl
  · have hx : row[x]? = none := by
      unfold tileAt at h
      rw [hrow] at h
      simpa using h
    have hxlen : row.length ≤ x := by
      by_contra hlt
      rw [List.getElem?_eq_getElem (by omega)] at hx
      exact absurd hx (by simp)
    have hset : row.set x t = row := List.set_eq_of_length_le hxlen
    show g.set y (row.set x t) = g
    rw [hset]
    exact list_set_self hrow

theorem tileAt_setTile_isSome {g : Grid} {x y a b : Nat} {t : Tile}
    (h : (tileAt g x y).isSome) : (tileAt (setTile g a b t) x y).isSome := by
  by_cases hp : (x, y) = (a, b)
  · obtain ⟨rfl, rfl⟩ := Prod.mk.injEq .. ▸ hp
    rcases Option.isSome_iff_exists.mp h with ⟨t₀, ht₀⟩
    rw [tileAt_setTile_self ht₀]
    rfl
  · rw [tileAt_setTile_of_ne a b t hp]
    exact h

theorem tileAt_setAll_not_mem {ps : List Pt} {x y : Nat}
    (h : (x, y) ∉ ps) (g : Grid) (t : Tile) :
    tileAt (setAll g ps t) x y = tileAt g x y := by
  induction ps generalizing g with
  | nil => rfl
  | cons p rest ih =>
    have hne : (x, y) ≠ p := fun he => h (he ▸ List.mem_cons_self p rest)
    have hrest : (x, y) ∉ rest := fun he => h (List.mem_cons_of_mem _ he)
    show tileAt (setAll (setTile g p.1 p.2 t) rest t) x y = _
    rw [ih hrest, tileAt_setTile_of_ne p.1 p.2 t (by simpa using hne)]

theorem tileAt_setAll_mem {ps : List Pt} {x y : Nat}
    (hmem : (x, y) ∈ ps) (g : Grid) (t : Tile)
    (hsome : (tileAt g x y).isSome) :
    tileAt (setAll g ps t) x y = some t := by
  induction ps generalizing g with
  | nil => exact absurd hmem (List.not_mem_nil _)
  | cons p rest ih =>
    show tileAt (setAll (setTile g p.1 p.2 t) rest t) x y = some t
    by_cases hrest : (x, y) ∈ rest
    · exact ih hrest _ (tileAt_setTile_isSome hsome)
    · have hp : (x, y) = p := by
        rcases List.mem_cons.mp hmem with h | h
        · exact h
        · exact absurd h hrest
      rw [tileAt_setAll_not_mem hrest]
      rcases Option.isSome_iff_exists.mp hsome with ⟨t₀, ht₀⟩
      rw [← hp]
      exact tileAt_setTile_self ht₀

theorem gridWF_setAll {W H : Nat} {g : Grid} (h : gridWF W H g)
    (ps : List Pt) (t : Tile) : gridWF W H (setAll g ps t) := by
  induction ps generalizing g with
  | nil => exact h
  | cons p rest ih => exact ih (gridWF_setTile h p.1 p.2 t)

theorem countRevealed_setAll {g : Grid} {ps : List Pt} {t : Tile}
    (ht : t ≠ Tile.revealed)
    (hps : ∀ p ∈ ps, tileAt g p.1 p.2 ≠ some Tile.revealed) :
    countRevealed (setAll g ps t) = countRevealed g := by
  induction ps generalizing g with
  | nil => rfl
  | cons p rest ih =>
    show countRevealed (setAll (setTile g p.1 p.2 t) rest t) = _
    have hp := hps p (List.mem_cons_self _ _)
    rcases h0 : tileAt g p.1 p.2 with _ | t₀
    · rw [setTile_of_tileAt_none h0]
      refine ih ?_
      intro q hq
      exact hps q (List.mem_cons_of_mem _ hq)
    · have ht₀ : t₀ ≠ Tile.revealed := by
        intro he
        exact hp (he ▸ h0)
      have hcount := countRevealed_setTile h0 ht₀ ht
      rw [← hcount]
      refine ih ?_
      intro q hq
      by_cases hqp : (q.1, q.2) = (p.1, p.2)
      · have : tileAt (setTile g p.1 p.2 t) q.1 q.2 = some t := by
          rw [show q.1 = p.1 from congrArg Prod.fst hqp,
            show q.2 = p.2 from congrArg Prod.snd hqp]
          exact tileAt_setTile_self h0
        rw [this]
        intro he
        exact ht (Option.some_injective _ he)
      · rw [tileAt_setTile_of_ne p.1 p.2 t hqp]
        exact hps q (List.mem_cons_of_mem _ hq)

theorem tileAt_setAll_ne_revealed_pres {g : Grid} {ps : List Pt} {t : Tile}
    (hps : ∀ p ∈ ps, tileAt g p.1 p.2 ≠ some Tile.revealed) {x y : Nat}
    (h : tileAt g x y = some Tile.revealed) :
    tileAt (setAll g ps t) x y = some Tile.revealed := by
  have hnot : (x, y) ∉ ps := by
    intro hmem
    exact hps (x, y) hmem h
  rw [tileAt_setAll_not_mem hnot]
  exact h

/-- The sweep leaves no trail tile behind. -/
theorem postGrid_no_trail (v : Finset Pt) (g : Grid) (x y : Nat) :
    tileAt (postGrid v g) x y ≠ some Tile.trail := by
  rw [tileAt_postGrid]
  rcases h : tileAt g x y with _ | t
  · simp
  · cases t <;> simp [postTile] <;> intro hfalse <;> split at hfalse <;>
      simp_all

/-- Under grid/trail coherence, the working grid of the fill holds no
trail tile. -/
theorem tempGridOf_no_trail {g : Grid} {trail : List Pt}
    (hcoh : trailCoherent g trail) (x y : Nat) :
    tileAt (tempGridOf g trail) x y ≠ some Tile.trail := by
  unfold tempGridOf
  by_cases hmem : (x, y) ∈ trail
  · have hsome : (tileAt g x y).isSome := by
      rw [(trailCoherent_mem_iff hcoh x y).mpr hmem]
      rfl
    rw [tileAt_setAll_mem hmem g Tile.revealed hsome]
    simp
  · rw [tileAt_setAll_not_mem hmem]
    intro ht
    exact hmem ((trailCoherent_mem_iff hcoh x y).mp ht)

theorem gridWF_tileAt_isSome {W H : Nat} {g : Grid} (h : gridWF W H g)
    {x y : Nat} (hx : x < W) (hy : y < H) : ∃ t, tileAt g x y = some t := by
  obtain ⟨hlen, hrows⟩ := h
  have hylt : y < g.length := by omega
  have hrow : g[y]? = some (g.get ⟨y, hylt⟩) :=
    List.getElem?_eq_getElem hylt
  have hrowlen : (g.get ⟨y, hylt⟩).length = W :=
    hrows _ (List.getElem_mem hylt)
  have hxlt : x < (g.get ⟨y, hylt⟩).length := by omega
  refine ⟨(g.get ⟨y, hylt⟩).get ⟨x, hxlt⟩, ?_⟩
  unfold tileAt
  rw [hrow]
  simpa using List.getElem?_eq_getElem hxlt

/-- Revealed-area percentage of a grid. -/
def percentRevealed (W H : Nat) (g : Grid) : ℚ :=
  ((countRevealed g : ℚ) / ((W * H : Nat) : ℚ)) * 100

theorem percentRevealed_mono {W H : Nat} {g g' : Grid}
    (h : countRevealed g ≤ countRevealed g') :
    percentRevealed W H g ≤ percentRevealed W H g' := by
  unfold percentRevealed
  rcases Nat.eq_zero_or_pos (W * H) with h0 | hpos
  · rw [h0]
    simp
  · have hden : (0 : ℚ) < ((W * H : Nat) : ℚ) := by
      exact_mod_cast hpos
    have hcast : ((countRevealed g : ℚ)) ≤ ((countRevealed g' : ℚ)) := by
      exact_mod_cast h
    refine mul_le_mul_of_nonneg_right ?_ (by norm_num)
    exact (div_le_div_right hden).mpr hcast

/-! ## Per-operation invariant lemmas -/

/-- The engine state invariant: well-formed grid, grid/trail coherence,
and the published `areaRevealed` stat never exceeds the grid's actual
revealed percentage (it is recomputed only on closures). -/
def StateInv (W H : Nat) (s : GameState) : Prop :=
  gridWF W H s.grid ∧ trailCoherent s.grid s.trail ∧
  s.stats.areaRevealed ≤ percentRevealed W H s.grid

instance (W H : Nat) (s : GameState) : Decidable (StateInv W H s) := by
  unfold StateInv gridWF percentRevealed
  infer_instance

theorem gridTrailOk_of_pointwise {g : Grid} {trail : List Pt}
    (h : ∀ x y, tileAt g x y = some Tile.trail → (x, y) ∈ trail) :
    gridTrailOk g trail := by
  rintro ⟨y, row⟩ hyr ⟨x, t⟩ hxt ht
  refine h x y ?_
  have hrow : g[y]? = some row := List.mk_mem_enum_iff_getElem?.mp hyr
  have hx : row[x]? = some t := List.mk_mem_enum_iff_getElem?.mp hxt
  unfold tileAt
  rw [hrow]
  simpa [hx] using congrArg some ht

theorem trailCoherent_of_no_trail {g : Grid}
    (h : ∀ x y, tileAt g x y ≠ some Tile.trail) : trailCoherent g [] := by
  refine ⟨List.nodup_nil, ?_, ?_⟩
  · intro p hp
    exact absurd hp (List.not_mem_nil _)
  · refine gridTrailOk_of_pointwise ?_
    intro x y ht
    exact absurd ht (h x y)

theorem postGrid_revealed_pres (v : Finset Pt) (g : Grid) (x y : Nat)
    (h : tileAt g x y = some Tile.revealed) :
    tileAt (postGrid v g) x y = some Tile.revealed := by
  rw [tileAt_postGrid, h]
  rfl

/-- Death revert: under coherence the reverted grid has no trail tile. -/
theorem death_no_trail {g : Grid} {trail : List Pt}
    (hcoh : trailCoherent g trail) (x y : Nat) :
    tileAt (setAll g trail Tile.hidden) x y ≠ some Tile.trail := by
  by_cases hmem : (x, y) ∈ trail
  · have hsome : (tileAt g x y).isSome := by
      rw [(trailCoherent_mem_iff hcoh x y).mpr hmem]
      rfl
    rw [tileAt_setAll_mem hmem g Tile.hidden hsome]
    simp
  · rw [tileAt_setAll_not_mem hmem]
    intro ht
    exact hmem ((trailCoherent_mem_iff hcoh x y).mp ht)

theorem death_countRevealed {g : Grid} {trail : List Pt}
    (hcoh : trailCoherent g trail) :
    countRevealed (setAll g trail Tile.hidden) = countRevealed g := by
  refine countRevealed_setAll (by simp) ?_
  intro p hp
  rw [(trailCoherent_mem_iff hcoh p.1 p.2).mpr hp]
  simp

theorem death_revealed_pres {g : Grid} {trail : List Pt}
    (hcoh : trailCoherent g trail) {x y : Nat}
    (h : tileAt g x y = some Tile.revealed) :
    tileAt (setAll g trail Tile.hidden) x y = some Tile.revealed := by
  refine tileAt_setAll_ne_revealed_pres ?_ h
  intro p hp
  rw [(trailCoherent_mem_iff hcoh p.1 p.2).mpr hp]
  simp

/-- `handleDeath` preserves the state invariant, the revealed count and
every revealed tile; it leaves the stats untouched. -/
theorem handleDeath_inv {W H : Nat} {s : GameState} (hInv : StateInv W H s)
    (now : Int) (ev : TickEvents) :
    StateInv W H (handleDeath now s ev).1 ∧
    countRevealed (handleDeath now s ev).1.grid = countRevealed s.grid ∧
    (handleDeath now s ev).1.stats = s.stats ∧
    (∀ x y, tileAt s.grid x y = some Tile.revealed →
      tileAt (handleDeath now s ev).1.grid x y = some Tile.revealed) := by
  obtain ⟨hwf, hcoh, harea⟩ := hInv
  have hgrid : (handleDeath now s ev).1.grid = setAll s.grid s.trail Tile.hidden :=
    rfl
  have hcount : countRevealed (handleDeath now s ev).1.grid = countRevealed s.grid := by
    rw [hgrid]
    exact death_countRevealed hcoh
  refine ⟨⟨?_, ?_, ?_⟩, hcount, rfl, ?_⟩
  · rw [hgrid]
    exact gridWF_setAll hwf _ _
  · show trailCoherent (setAll s.grid s.trail Tile.hidden) []
    exact trailCoherent_of_no_trail (death_no_trail hcoh)
  · show s.stats.areaRevealed ≤ percentRevealed W H (handleDeath now s ev).1.grid
    refine le_trans harea (percentRevealed_mono ?_)
    omega
  · intro x y h
    rw [hgrid]
    exact death_revealed_pres hcoh h

/-- Carving a hidden, in-bounds tile preserves the grid/trail
coherence. -/
theorem carveOp_coherent {W H : Nat} {s : GameState}
    (hcoh : trailCoherent s.grid s.trail) {nextX nextY : Int}
    (hb : 0 ≤ nextX ∧ nextX < (W : Int) ∧ 0 ≤ nextY ∧ nextY < (H : Int))
    (htile : tileAtZ s.grid nextX nextY = some Tile.hidden) :
    trailCoherent (carveOp s nextX nextY).grid (carveOp s nextX nextY).trail := by
  have htile' : tileAt s.grid nextX.toNat nextY.toNat = some Tile.hidden := by
    unfold tileAtZ at htile
    rw [if_pos ⟨hb.1, hb.2.2.1⟩] at htile
    exact htile
  have hnotmem : (nextX.toNat, nextY.toNat) ∉ s.trail := by
    intro hmem
    have := (trailCoherent_mem_iff hcoh nextX.toNat nextY.toNat).mpr hmem
    rw [htile'] at this
    exact absurd (Option.some_injective _ this) (by simp)
  show trailCoherent (setTile s.grid nextX.toNat nextY.toNat Tile.trail)
    (s.trail ++ [(nextX.toNat, nextY.toNat)])
  obtain ⟨hnd, hmem, hok⟩ := hcoh
  refine ⟨?_, ?_, ?_⟩
  · rw [List.nodup_append]
    exact ⟨hnd, List.nodup_singleton _, by
      intro a ha hb'
      rw [List.mem_singleton.mp hb'] at ha
      exact hnotmem ha⟩
  · intro p hp
    rcases List.mem_append.mp hp with hp' | hp'
    · have hne : (p.1, p.2) ≠ (nextX.toNat, nextY.toNat) := by
        intro he
        rw [show p = (p.1, p.2) from rfl, he] at hp'
        exact hnotmem hp'
      rw [tileAt_setTile_of_ne _ _ _ hne]
      exact hmem p hp'
    · rw [List.mem_singleton.mp hp']
      exact tileAt_setTile_self htile'
  · refine gridTrailOk_of_pointwise ?_
    intro x y ht
    by_cases he : (x, y) = (nextX.toNat, nextY.toNat)
    · rw [he]
      exact List.mem_append_right _ (List.mem_singleton_self _)
    · rw [tileAt_setTile_of_ne _ _ _ he] at ht
      exact List.mem_append_left _
        ((trailCoherent_mem_iff ⟨hnd, hmem, hok⟩ x y).mp ht)

/-- Carving a hidden tile preserves the state invariant, the revealed
count and every revealed tile. -/
theorem carveOp_inv {W H : Nat} {s : GameState} (hInv : StateInv W H s)
    {nextX nextY : Int} (hb : 0 ≤ nextX ∧ nextX < (W : Int) ∧
      0 ≤ nextY ∧ nextY < (H : Int))
    (htile : tileAtZ s.grid nextX nextY = some Tile.hidden) :
    StateInv W H (carveOp s nextX nextY) ∧
    countRevealed (carveOp s nextX nextY).grid = countRevealed s.grid ∧
    (carveOp s nextX nextY).stats = s.stats ∧
    (∀ x y, tileAt s.grid x y = some Tile.revealed →
      tileAt (carveOp s nextX nextY).grid x y = some Tile.revealed) := by
  obtain ⟨hwf, hcoh, harea⟩ := hInv
  have htile' : tileAt s.grid nextX.toNat nextY.toNat = some Tile.hidden := by
    unfold tileAtZ at htile
    rw [if_pos ⟨hb.1, hb.2.2.1⟩] at htile
    exact htile
  have hnotmem : (nextX.toNat, nextY.toNat) ∉ s.trail := by
    intro hmem
    have := (trailCoherent_mem_iff hcoh nextX.toNat nextY.toNat).mpr hmem
    rw [htile'] at this
    exact absurd (Option.some_injective _ this) (by simp)
  have hgrid : (carveOp s nextX nextY).grid =
      setTile s.grid nextX.toNat nextY.toNat Tile.trail := rfl
  have hcount : countRevealed (carveOp s nextX nextY).grid = countRevealed s.grid := by
    rw [hgrid]
    exact countRevealed_setTile htile' (by simp) (by simp)
  refine ⟨⟨?_, ?_, ?_⟩, hcount, rfl, ?_⟩
  · rw [hgrid]
    exact gridWF_setTile hwf _ _ _
  · exact carveOp_coherent hcoh hb htile
  · show s.stats.areaRevealed ≤ percentRevealed W H (carveOp s nextX nextY).grid
    refine le_trans harea (percentRevealed_mono ?_)
    omega
  · intro x y h
    rw [hgrid]
    have hne : (x, y) ≠ (nextX.toNat, nextY.toNat) := by
      intro he
      have hx : x = nextX.toNat := congrArg Prod.fst he
      have hy : y = nextY.toNat := congrArg Prod.snd he
      rw [hx, hy] at h
      exact absurd (htile'.symm.trans h) (by simp)
    rw [tileAt_setTile_of_ne _ _ _ hne]
    exact h

theorem StateInv_congr {W H : Nat} {s s' : GameState}
    (hg : s'.grid = s.grid) (ht : s'.trail = s.trail)
    (ha : s'.stats.areaRevealed = s.stats.areaRevealed)
    (h : StateInv W H s) : StateInv W H s' := by
  unfold StateInv at *
  rw [hg, ht, ha]
  exact h

/-- Closure preserves the invariant; the revealed count and the published
`areaRevealed` both only grow, and revealed tiles stay revealed. -/
theorem closureOp_inv {W H : Nat} {s : GameState} (hInv : StateInv W H s)
    (now : Int) (nextX nextY : Int) :
    StateInv W H (closureOp W H now s nextX nextY).1 ∧
    countRevealed s.grid ≤ countRevealed (closureOp W H now s nextX nextY).1.grid ∧
    s.stats.areaRevealed ≤ (closureOp W H now s nextX nextY).1.stats.areaRevealed ∧
    (∀ x y, tileAt s.grid x y = some Tile.revealed →
      tileAt (closureOp W H now s nextX nextY).1.grid x y = some Tile.revealed) := by
  obtain ⟨hwf, hcoh, harea⟩ := hInv
  set v := (runEnemies W H (tempGridOf s.grid s.trail) s.enemies).visited
    with hv
  have hgrid : (closureOp W H now s nextX nextY).1.grid = postGrid v s.grid :=
    rfl
  have hstat : (closureOp W H now s nextX nextY).1.stats.areaRevealed =
      percentRevealed W H (postGrid v s.grid) := rfl
  have hcount : countRevealed s.grid ≤ countRevealed (postGrid v s.grid) :=
    countRevealed_le_postGrid v s.grid
  refine ⟨⟨?_, ?_, ?_⟩, ?_, ?_, ?_⟩
  · rw [hgrid]
    exact gridWF_postGrid hwf v
  · show trailCoherent (postGrid v s.grid) []
    exact trailCoherent_of_no_trail (postGrid_no_trail v s.grid)
  · show percentRevealed W H (postGrid v s.grid) ≤
      percentRevealed W H (postGrid v s.grid)
    exact le_rfl
  · rw [hgrid]
    exact hcount
  · rw [hstat]
    exact le_trans harea (percentRevealed_mono hcount)
  · intro x y h
    rw [hgrid]
    exact postGrid_revealed_pres v s.grid x y h

/-- The player-move phase preserves the invariant; the revealed count and
the published `areaRevealed` never decrease, and revealed tiles stay
revealed. -/
theorem movePlayer_mono {W H : Nat} (now : Int) (dir : Int × Int)
    (isInvuln : Bool) {s : GameState} (ev : TickEvents)
    (hInv : StateInv W H s) :
    StateInv W H (movePlayer W H now dir isInvuln s ev).1 ∧
    countRevealed s.grid ≤
      countRevealed (movePlayer W H now dir isInvuln s ev).1.grid ∧
    s.stats.areaRevealed ≤
      (movePlayer W H now dir isInvuln s ev).1.stats.areaRevealed ∧
    (∀ x y, tileAt s.grid x y = some Tile.revealed →
      tileAt (movePlayer W H now dir isInvuln s ev).1.grid x y =
        some Tile.revealed) := by
  unfold movePlayer
  by_cases h1 : 60 < now - s.player.lastMoveTime
  case neg =>
    rw [if_neg h1]
    exact ⟨hInv, le_rfl, le_rfl, fun x y h => h⟩
  rw [if_pos h1]
  by_cases h2 : dir.1 ≠ 0 ∨ dir.2 ≠ 0
  case neg =>
    rw [if_neg h2]
    exact ⟨hInv, le_rfl, le_rfl, fun x y h => h⟩
  rw [if_pos h2]
  dsimp only
  set s' : GameState := { s with combo := { s.combo with lastMoveTime := now } }
    with hs'
  have hInv' : StateInv W H s' := StateInv_congr rfl rfl rfl hInv
  have hgrid' : s'.grid = s.grid := rfl
  have hstats' : s'.stats = s.stats := rfl
  have hcountEq : countRevealed s'.grid = countRevealed s.grid := rfl
  by_cases h3 : 0 ≤ s.player.x + dir.1 ∧ s.player.x + dir.1 < (W : Int) ∧
      0 ≤ s.player.y + dir.2 ∧ s.player.y + dir.2 < (H : Int)
  case neg =>
    rw [if_neg h3]
    exact ⟨StateInv_congr rfl rfl rfl hInv, le_rfl, le_rfl, fun x y h => h⟩
  rw [if_pos h3]
  rcases htile : tileAtZ s'.grid (s.player.x + dir.1) (s.player.y + dir.2) with
    _ | t
  · exact ⟨StateInv_congr rfl rfl rfl hInv, le_rfl, le_rfl, fun x y h => h⟩
  · cases t with
    | trail =>
      dsimp only
      by_cases h4 : ¬ isInvuln = true
      · rw [if_pos h4]
        obtain ⟨hi, hc, hst, hpres⟩ := handleDeath_inv hInv' now ev
        refine ⟨StateInv_congr rfl rfl rfl hi, ?_, ?_, ?_⟩
        · show countRevealed s.grid ≤
            countRevealed (handleDeath now s' ev).1.grid
          omega
        · show s.stats.areaRevealed ≤
            (handleDeath now s' ev).1.stats.areaRevealed
          rw [hst]
        · intro x y h
          exact hpres x y h
      · rw [if_neg h4]
        exact ⟨StateInv_congr rfl rfl rfl hInv, le_rfl, le_rfl, fun x y h => h⟩
    | hidden =>
      dsimp only
      obtain ⟨hi, hc, hst, hpres⟩ := carveOp_inv hInv' h3 htile
      refine ⟨StateInv_congr rfl rfl rfl hi, ?_, ?_, ?_⟩
      · show countRevealed s.grid ≤
          countRevealed (carveOp s' (s.player.x + dir.1) (s.player.y + dir.2)).grid
        omega
      · show s.stats.areaRevealed ≤
          (carveOp s' (s.player.x + dir.1) (s.player.y + dir.2)).stats.areaRevealed
        rw [hst]
      · intro x y h
        exact hpres x y h
    | revealed =>
      dsimp only
      by_cases h4 : s.player.isDrawing = true
      · rw [if_pos h4]
        obtain ⟨hi, hc, hst, hpres⟩ := closureOp_inv hInv' now
          (s.player.x + dir.1) (s.player.y + dir.2)
        exact ⟨StateInv_congr rfl rfl rfl hi, hc, hst, hpres⟩
      · rw [if_neg h4]
        exact ⟨StateInv_congr rfl rfl rfl hInv, le_rfl, le_rfl, fun x y h => h⟩

/-- One adversary's update preserves the invariant; its only state
mutations go through `handleDeath`, which keeps the revealed count and the
stats unchanged. -/
theorem enemyStep_mono {W H : Nat} (now : Int) (isInvuln : Bool)
    (acc : GameState × TickEvents × List Enemy) (e : Enemy)
    (hInv : StateInv W H acc.1) :
    StateInv W H (enemyStep W H now isInvuln acc e).1 ∧
    countRevealed (enemyStep W H now isInvuln acc e).1.grid =
      countRevealed acc.1.grid ∧
    (enemyStep W H now isInvuln acc e).1.stats = acc.1.stats ∧
    (∀ x y, tileAt acc.1.grid x y = some Tile.revealed →
      tileAt (enemyStep W H now isInvuln acc e).1.grid x y =
        some Tile.revealed) := by
  unfold enemyStep
  dsimp only
  split_ifs with h1 h2 h3
  · obtain ⟨ha, hb, hc, hd⟩ := handleDeath_inv hInv now acc.2.1
    obtain ⟨ha', hb', hc', hd'⟩ := handleDeath_inv ha now
      (handleDeath now acc.1 acc.2.1).2
    refine ⟨ha', by rw [hb', hb], by rw [hc', hc], ?_⟩
    intro x y h
    exact hd' x y (hd x y h)
  · exact handleDeath_inv hInv now acc.2.1
  · exact handleDeath_inv hInv now acc.2.1
  · exact ⟨hInv, rfl, rfl, fun x y h => h⟩

/-- The adversary loop preserves the invariant, the revealed count and the
stats, and keeps revealed tiles revealed. -/
theorem moveEnemies_mono {W H : Nat} (now : Int) (isInvuln : Bool)
    {s : GameState} (ev : TickEvents) (hInv : StateInv W H s) :
    StateInv W H (moveEnemies W H now isInvuln s ev).1 ∧
    countRevealed (moveEnemies W H now isInvuln s ev).1.grid =
      countRevealed s.grid ∧
    (moveEnemies W H now isInvuln s ev).1.stats = s.stats ∧
    (∀ x y, tileAt s.grid x y = some Tile.revealed →
      tileAt (moveEnemies W H now isInvuln s ev).1.grid x y =
        some Tile.revealed) := by
  have haux : ∀ (es : List Enemy) (acc : GameState × TickEvents × List Enemy),
      StateInv W H acc.1 →
      StateInv W H (es.foldl (enemyStep W H now isInvuln) acc).1 ∧
      countRevealed (es.foldl (enemyStep W H now isInvuln) acc).1.grid =
        countRevealed acc.1.grid ∧
      (es.foldl (enemyStep W H now isInvuln) acc).1.stats = acc.1.stats ∧
      (∀ x y, tileAt acc.1.grid x y = some Tile.revealed →
        tileAt (es.foldl (enemyStep W H now isInvuln) acc).1.grid x y =
          some Tile.revealed) := by
    intro es
    induction es with
    | nil => intro acc h; exact ⟨h, rfl, rfl, fun x y hh => hh⟩
    | cons e es ih =>
      intro acc h
      rw [List.foldl_cons]
      obtain ⟨ha, hb, hc, hd⟩ := enemyStep_mono now isInvuln acc e h
      obtain ⟨ha', hb', hc', hd'⟩ := ih (enemyStep W H now isInvuln acc e) ha
      refine ⟨ha', by rw [hb', hb], by rw [hc', hc], ?_⟩
      intro x y hh
      exact hd' x y (hd x y hh)
  obtain ⟨ha, hb, hc, hd⟩ := haux s.enemies (s, ev, []) hInv
  exact ⟨StateInv_congr rfl rfl rfl ha, hb, hc, hd⟩

theorem itemSpawn_grid (W H : Nat) (lt q1 q2 q3 : ℚ) (s : GameState) :
    (itemSpawn W H lt q1 q2 q3 s).grid = s.grid := by
  unfold itemSpawn
  dsimp only
  split_ifs <;> rfl

theorem itemSpawn_trail (W H : Nat) (lt q1 q2 q3 : ℚ) (s : GameState) :
    (itemSpawn W H lt q1 q2 q3 s).trail = s.trail := by
  unfold itemSpawn
  dsimp only
  split_ifs <;> rfl

theorem itemSpawn_stats (W H : Nat) (lt q1 q2 q3 : ℚ) (s : GameState) :
    (itemSpawn W H lt q1 q2 q3 s).stats = s.stats := by
  unfold itemSpawn
  dsimp only
  split_ifs <;> rfl

theorem itemSpawn_player (W H : Nat) (lt q1 q2 q3 : ℚ) (s : GameState) :
    (itemSpawn W H lt q1 q2 q3 s).player = s.player := by
  unfold itemSpawn
  dsimp only
  split_ifs <;> rfl

/-- The whole tick preserves the state invariant; both the revealed count
of the grid and the published `areaRevealed` are non-decreasing, and a
revealed tile never changes state. -/
theorem tick_mono (W H : Nat) (level : LevelConfig) (lt : ℚ)
    (inp : TickInput) (s : GameState) (hInv : StateInv W H s) :
    StateInv W H (tick W H level lt inp s).1 ∧
    countRevealed s.grid ≤ countRevealed (tick W H level lt inp s).1.grid ∧
    s.stats.areaRevealed ≤ (tick W H level lt inp s).1.stats.areaRevealed ∧
    (∀ x y, tileAt s.grid x y = some Tile.revealed →
      tileAt (tick W H level lt inp s).1.grid x y = some Tile.revealed) := by
  have hiv : (tick W H level lt inp s).1 =
      (moveEnemies W H inp.now (decide (inp.now < s.player.invulnerableUntil))
        (movePlayer W H inp.now inp.dir
          (decide (inp.now < s.player.invulnerableUntil))
          (updateItems (inp.dt : ℚ)
            (itemSpawn W H lt inp.spawnRoll inp.rxRoll inp.ryRoll
              { s with
                  stats := { s.stats with
                    timeElapsed := s.stats.timeElapsed + (inp.dt : ℚ) / 1000 }
                  combo := comboCheck inp.now s.combo }) emptyEvents).1
          (updateItems (inp.dt : ℚ)
            (itemSpawn W H lt inp.spawnRoll inp.rxRoll inp.ryRoll
              { s with
                  stats := { s.stats with
                    timeElapsed := s.stats.timeElapsed + (inp.dt : ℚ) / 1000 }
                  combo := comboCheck inp.now s.combo }) emptyEvents).2).1
        (movePlayer W H inp.now inp.dir
          (decide (inp.now < s.player.invulnerableUntil))
          (updateItems (inp.dt : ℚ)
            (itemSpawn W H lt inp.spawnRoll inp.rxRoll inp.ryRoll
              { s with
                  stats := { s.stats with
                    timeElapsed := s.stats.timeElapsed + (inp.dt : ℚ) / 1000 }
                  combo := comboCheck inp.now s.combo }) emptyEvents).1
          (updateItems (inp.dt : ℚ)
            (itemSpawn W H lt inp.spawnRoll inp.rxRoll inp.ryRoll
              { s with
                  stats := { s.stats with
                    timeElapsed := s.stats.timeElapsed + (inp.dt : ℚ) / 1000 }
                  combo := comboCheck inp.now s.combo }) emptyEvents).2).2).1 := by
    rfl
  set sB : GameState :=
    { s with
        stats := { s.stats with
          timeElapsed := s.stats.timeElapsed + (inp.dt : ℚ) / 1000 }
        combo := comboCheck inp.now s.combo } with hsB
  set sC : GameState := itemSpawn W H lt inp.spawnRoll inp.rxRoll inp.ryRoll sB
    with hsC
  have hInvB : StateInv W H sB := StateInv_congr rfl rfl rfl hInv
  have hInvC : StateInv W H sC :=
    StateInv_congr (itemSpawn_grid ..) (itemSpawn_trail ..)
      (by rw [itemSpawn_stats]) hInvB
  have hgC : sC.grid = s.grid := itemSpawn_grid ..
  have haC : sC.stats.areaRevealed = s.stats.areaRevealed := by
    rw [itemSpawn_stats]
  set sD : GameState := (updateItems (inp.dt : ℚ) sC emptyEvents).1 with hsD
  have hgD : sD.grid = sC.grid := rfl
  have haD : sD.stats.areaRevealed = sC.stats.areaRevealed := rfl
  have htD : sD.trail = sC.trail := rfl
  have hInvD : StateInv W H sD := StateInv_congr hgD htD haD hInvC
  obtain ⟨hE1, hE2, hE3, hE4⟩ := movePlayer_mono inp.now inp.dir
    (decide (inp.now < s.player.invulnerableUntil))
    (updateItems (inp.dt : ℚ) sC emptyEvents).2 hInvD
  obtain ⟨hF1, hF2, hF3, hF4⟩ := moveEnemies_mono inp.now
    (decide (inp.now < s.player.invulnerableUntil))
    (movePlayer W H inp.now inp.dir
      (decide (inp.now < s.player.invulnerableUntil)) sD
      (updateItems (inp.dt : ℚ) sC emptyEvents).2).2 hE1
  rw [hiv]
  refine ⟨hF1, ?_, ?_, ?_⟩
  · rw [hF2]
    have : countRevealed sD.grid = countRevealed s.grid := by
      rw [hgD, hgC]
    omega
  · rw [hF3]
    refine le_trans ?_ hE3
    rw [haD, haC]
  · intro x y h
    refine hF4 x y (hE4 x y ?_)
    rw [hgD, hgC]
    exact h

/-! ## Invulnerable ticks -/

theorem postGrid_trail_to_revealed (v : Finset Pt) (g : Grid) {x y : Nat}
    (h : tileAt g x y = some Tile.trail) :
    tileAt (postGrid v g) x y = some Tile.revealed := by
  rw [tileAt_postGrid, h]
  rfl

/-- With the invulnerability flag set, the player-move phase cannot lose a
life and cannot revert a trail tile to hidden (it may complete it to
revealed through a closure). -/
theorem movePlayer_invuln (W H : Nat) (now : Int) (dir : Int × Int)
    (s : GameState) (ev : TickEvents) :
    (movePlayer W H now dir true s ev).1.player.lives = s.player.lives ∧
    (movePlayer W H now dir true s ev).2.livesChanges = ev.livesChanges ∧
    (movePlayer W H now dir true s ev).2.gameOver = ev.gameOver ∧
    (∀ x y, tileAt s.grid x y = some Tile.trail →
      tileAt (movePlayer W H now dir true s ev).1.grid x y = some Tile.trail ∨
      tileAt (movePlayer W H now dir true s ev).1.grid x y =
        some Tile.revealed) := by
  unfold movePlayer
  by_cases h1 : 60 < now - s.player.lastMoveTime
  case neg =>
    rw [if_neg h1]
    exact ⟨rfl, rfl, rfl, fun x y h => Or.inl h⟩
  rw [if_pos h1]
  by_cases h2 : dir.1 ≠ 0 ∨ dir.2 ≠ 0
  case neg =>
    rw [if_neg h2]
    exact ⟨rfl, rfl, rfl, fun x y h => Or.inl h⟩
  rw [if_pos h2]
  dsimp only
  set s' : GameState := { s with combo := { s.combo with lastMoveTime := now } }
    with hs'
  by_cases h3 : 0 ≤ s.player.x + dir.1 ∧ s.player.x + dir.1 < (W : Int) ∧
      0 ≤ s.player.y + dir.2 ∧ s.player.y + dir.2 < (H : Int)
  case neg =>
    rw [if_neg h3]
    exact ⟨rfl, rfl, rfl, fun x y h => Or.inl h⟩
  rw [if_pos h3]
  rcases htile : tileAtZ s'.grid (s.player.x + dir.1) (s.player.y + dir.2) with
    _ | t
  · exact ⟨rfl, rfl, rfl, fun x y h => Or.inl h⟩
  · cases t with
    | trail =>
      dsimp only
      rw [if_neg (by simp)]
      exact ⟨rfl, rfl, rfl, fun x y h => Or.inl h⟩
    | hidden =>
      dsimp only
      refine ⟨rfl, rfl, rfl, ?_⟩
      intro x y h
      left
      show tileAt (carveOp s' (s.player.x + dir.1) (s.player.y + dir.2)).grid
        x y = some Tile.trail
      have htile' : tileAt s.grid (s.player.x + dir.1).toNat
          (s.player.y + dir.2).toNat = some Tile.hidden := by
        unfold tileAtZ at htile
        rw [if_pos ⟨h3.1, h3.2.2.1⟩] at htile
        exact htile
      have hne : (x, y) ≠
          ((s.player.x + dir.1).toNat, (s.player.y + dir.2).toNat) := by
        intro he
        have hx : x = (s.player.x + dir.1).toNat := congrArg Prod.fst he
        have hy : y = (s.player.y + dir.2).toNat := congrArg Prod.snd he
        rw [hx, hy] at h
        exact absurd (htile'.symm.trans h) (by simp)
      show tileAt (setTile s.grid (s.player.x + dir.1).toNat
          (s.player.y + dir.2).toNat Tile.trail) x y = some Tile.trail
      rw [tileAt_setTile_of_ne _ _ _ hne]
      exact h
    | revealed =>
      dsimp only
      by_cases h4 : s.player.isDrawing = true
      · rw [if_pos h4]
        refine ⟨rfl, rfl, rfl, ?_⟩
        intro x y h
        right
        show tileAt (closureOp W H now s' (s.player.x + dir.1)
            (s.player.y + dir.2)).1.grid x y = some Tile.revealed
        exact postGrid_trail_to_revealed _ _ h
      · rw [if_neg h4]
        exact ⟨rfl, rfl, rfl, fun x y h => Or.inl h⟩

/-- With the invulnerability flag set, an adversary's update passes the
game state and the events through unchanged. -/
theorem enemyStep_invuln (W H : Nat) (now : Int)
    (acc : GameState × TickEvents × List Enemy) (e : Enemy) :
    (enemyStep W H now true acc e).1 = acc.1 ∧
    (enemyStep W H now true acc e).2.1 = acc.2.1 := by
  unfold enemyStep
  dsimp only
  rw [if_neg (by rintro ⟨hn, -⟩; exact hn rfl),
    if_neg (by rintro ⟨hn, -⟩; exact hn rfl)]
  exact ⟨rfl, rfl⟩

theorem moveEnemies_invuln (W H : Nat) (now : Int) (s : GameState)
    (ev : TickEvents) :
    (moveEnemies W H now true s ev).1.grid = s.grid ∧
    (moveEnemies W H now true s ev).1.player = s.player ∧
    (moveEnemies W H now true s ev).1.trail = s.trail ∧
    (moveEnemies W H now true s ev).2 = ev := by
  have haux : ∀ (es : List Enemy) (acc : GameState × TickEvents × List Enemy),
      (es.foldl (enemyStep W H now true) acc).1 = acc.1 ∧
      (es.foldl (enemyStep W H now true) acc).2.1 = acc.2.1 := by
    intro es
    induction es with
    | nil => intro acc; exact ⟨rfl, rfl⟩
    | cons e es ih =>
      intro acc
      rw [List.foldl_cons]
      obtain ⟨h1, h2⟩ := ih (enemyStep W H now true acc e)
      obtain ⟨h3, h4⟩ := enemyStep_invuln W H now acc e
      exact ⟨h1.trans h3, h2.trans h4⟩
  obtain ⟨h1, h2⟩ := haux s.enemies (s, ev, [])
  unfold moveEnemies
  dsimp only
  exact ⟨by rw [h1], by rw [h1], by rw [h1], by rw [h2]⟩

/-- A tick that begins inside the invulnerability window cannot change the
life count, fire a lives-changed or game-over callback, or revert any
trail tile to hidden. -/
theorem tick_invuln (W H : Nat) (level : LevelConfig) (lt : ℚ)
    (inp : TickInput) (s : GameState)
    (h : inp.now < s.player.invulnerableUntil) :
    (tick W H level lt inp s).1.player.lives = s.player.lives ∧
    (tick W H level lt inp s).2.livesChanges = [] ∧
    (tick W H level lt inp s).2.gameOver = [] ∧
    (∀ x y, tileAt s.grid x y = some Tile.trail →
      tileAt (tick W H level lt inp s).1.grid x y ≠ some Tile.hidden) := by
  have hd : decide (inp.now < s.player.invulnerableUntil) = true :=
    decide_eq_true h
  set sB : GameState :=
    { s with
        stats := { s.stats with
          timeElapsed := s.stats.timeElapsed + (inp.dt : ℚ) / 1000 }
        combo := comboCheck inp.now s.combo } with hsB
  set sC : GameState := itemSpawn W H lt inp.spawnRoll inp.rxRoll inp.ryRoll sB
    with hsC
  set pD := updateItems (inp.dt : ℚ) sC emptyEvents with hpD
  set pE := movePlayer W H inp.now inp.dir
    (decide (inp.now < s.player.invulnerableUntil)) pD.1 pD.2 with hpE
  set pF := moveEnemies W H inp.now
    (decide (inp.now < s.player.invulnerableUntil)) pE.1 pE.2 with hpF
  have hstate : (tick W H level lt inp s).1 = pF.1 := rfl
  have hev : (tick W H level lt inp s).2 =
      (if level.minRevealPercent ≤ pF.1.stats.areaRevealed then
        { (if (9 : ℚ) / 10 < inp.statsRoll then
            { pF.2 with statsUpdate := some pF.1.stats } else pF.2) with
          levelComplete := some pF.1.stats }
      else
        (if (9 : ℚ) / 10 < inp.statsRoll then
          { pF.2 with statsUpdate := some pF.1.stats } else pF.2)) := rfl
  have hLC : (tick W H level lt inp s).2.livesChanges = pF.2.livesChanges := by
    rw [hev]
    split_ifs <;> rfl
  have hGO : (tick W H level lt inp s).2.gameOver = pF.2.gameOver := by
    rw [hev]
    split_ifs <;> rfl
  have hpE' : pE = movePlayer W H inp.now inp.dir true pD.1 pD.2 := by
    rw [hpE, hd]
  have hpF' : pF = moveEnemies W H inp.now true pE.1 pE.2 := by
    rw [hpF, hd]
  obtain ⟨hmg, hmp, hmt, hme⟩ := moveEnemies_invuln W H inp.now pE.1 pE.2
  obtain ⟨hl, hlc, hgo, htr⟩ := movePlayer_invuln W H inp.now inp.dir pD.1 pD.2
  have hplayD : pD.1.player = s.player := by
    show (updateItems (inp.dt : ℚ) sC emptyEvents).1.player = s.player
    have h1 : (updateItems (inp.dt : ℚ) sC emptyEvents).1.player = sC.player :=
      rfl
    rw [h1, hsC, itemSpawn_player]
  have hgridD : pD.1.grid = s.grid := by
    show (updateItems (inp.dt : ℚ) sC emptyEvents).1.grid = s.grid
    have h1 : (updateItems (inp.dt : ℚ) sC emptyEvents).1.grid = sC.grid := rfl
    rw [h1, hsC, itemSpawn_grid]
  refine ⟨?_, ?_, ?_, ?_⟩
  · rw [hstate, hpF']
    rw [hmp, hpE', hl, hplayD]
  · rw [hLC, hpF']
    rw [hme, hpE', hlc]
    rfl
  · rw [hGO, hpF']
    rw [hme, hpE', hgo]
    rfl
  · intro x y hxy
    rw [hstate, hpF', hmg, hpE']
    have hxy' : tileAt pD.1.grid x y = some Tile.trail := by
      rw [hgridD]
      exact hxy
    rcases htr x y hxy' with h' | h' <;> rw [h'] <;> simp

/-! ## Initial-state facts -/

theorem tileAt_initGrid (W H x y : Nat) :
    tileAt (initGrid W H) x y =
      if x < W ∧ y < H then
        some (if x = 0 ∨ x = W - 1 ∨ y = 0 ∨ y = H - 1 then Tile.revealed
          else Tile.hidden)
      else none := by
  unfold tileAt initGrid
  rw [List.getElem?_map]
  by_cases hy : y < H
  · rw [List.getElem?_range hy]
    simp only [Option.map_some', Option.some_bind, List.getElem?_map]
    by_cases hx : x < W
    · rw [List.getElem?_range hx]
      simp [hx, hy]
    · rw [List.getElem?_eq_none (by simpa using hx)]
      simp [hx]
  · rw [List.getElem?_eq_none (by simpa using hy)]
    simp [hy]

theorem gridWF_initGrid (W H : Nat) : gridWF W H (initGrid W H) := by
  constructor
  · simp [initGrid]
  · intro row hrow
    unfold initGrid at hrow
    rcases List.mem_map.mp hrow with ⟨y, -, rfl⟩
    simp

theorem initGrid_no_trail (W H x y : Nat) :
    tileAt (initGrid W H) x y ≠ some Tile.trail := by
  rw [tileAt_initGrid]
  split_ifs with h1 h2 <;> simp

theorem percentRevealed_nonneg (W H : Nat) (g : Grid) :
    (0 : ℚ) ≤ percentRevealed W H g := by
  unfold percentRevealed
  positivity

theorem initState_inv (W H : Nat) (level : LevelConfig)
    (rands : List (ℚ × ℚ × ℚ × ℚ)) (now : Int) :
    StateInv W H (initState W H level rands now) := by
  refine ⟨gridWF_initGrid W H, ?_, ?_⟩
  · exact trailCoherent_of_no_trail (initGrid_no_trail W H)
  · exact percentRevealed_nonneg W H _

/-! ## The spec-side reachability relation (non-revealed paths) -/

/-- One step of the spec's description: move to an adjacent, in-bounds
tile that is not revealed in the working grid. -/
def nonRevStep (W H : Nat) (g : Grid) (a b : Pt) : Prop :=
  adjPt a b ∧ b.1 < W ∧ b.2 < H ∧ tileAt g b.1 b.2 ≠ some Tile.revealed

/-- Reachability by a 4-connected path of non-revealed tiles. -/
def NonRevReach (W H : Nat) (g : Grid) (s p : Pt) : Prop :=
  Relation.ReflTransGen (nonRevStep W H g) s p

/-- The spec's protection notion: the adversary's containing tile is in
bounds and not revealed, and the tile `p` is reachable from it by a
4-connected path of non-revealed tiles of the working grid. -/
def adversaryBlocks (W H : Nat) (g : Grid) (e : Enemy) (p : Pt) : Prop :=
  0 ≤ (enemyStart e).1 ∧ (enemyStart e).1 < (W : Int) ∧
  0 ≤ (enemyStart e).2 ∧ (enemyStart e).2 < (H : Int) ∧
  tileAt g (enemyStart e).1.toNat (enemyStart e).2.toNat ≠
    some Tile.revealed ∧
  NonRevReach W H g ((enemyStart e).1.toNat, (enemyStart e).2.toNat) p

/-- On a well-formed grid with no trail tiles (such as the fill's working
grid under coherence), non-revealed means hidden, so the code's step
relation and the spec's coincide. -/
theorem reach_iff_nonRevReach {W H : Nat} {g : Grid} (hwf : gridWF W H g)
    (hnt : ∀ x y, tileAt g x y ≠ some Tile.trail) (s p : Pt) :
    Reach W H g s p ↔ NonRevReach W H g s p := by
  constructor
  · refine Relation.ReflTransGen.mono ?_
    rintro a b ⟨hadj, hbW, hbH, ht⟩
    refine ⟨hadj, hbW, hbH, ?_⟩
    rw [ht]
    simp
  · refine Relation.ReflTransGen.mono ?_
    rintro a b ⟨hadj, hbW, hbH, ht⟩
    refine ⟨hadj, hbW, hbH, ?_⟩
    rcases gridWF_tileAt_isSome hwf hbW hbH with ⟨t, hbt⟩
    cases t with
    | revealed => exact absurd hbt ht
    | hidden => exact hbt
    | trail => exact absurd hbt (hnt b.1 b.2)

theorem enemyProtects_iff_adversaryBlocks {W H : Nat} {g : Grid}
    (hwf : gridWF W H g) (hnt : ∀ x y, tileAt g x y ≠ some Tile.trail)
    (e : Enemy) (p : Pt) :
    enemyProtects W H g e p ↔ adversaryBlocks W H g e p := by
  unfold enemyProtects adversaryBlocks
  constructor
  · rintro ⟨h1, h2, h3, h4, h5, h6⟩
    exact ⟨h1, h2, h3, h4, h5, (reach_iff_nonRevReach hwf hnt _ _).mp h6⟩
  · rintro ⟨h1, h2, h3, h4, h5, h6⟩
    exact ⟨h1, h2, h3, h4, h5, (reach_iff_nonRevReach hwf hnt _ _).mpr h6⟩

theorem handleDeath_coherent {s : GameState}
    (hcoh : trailCoherent s.grid s.trail) (now : Int) (ev : TickEvents) :
    trailCoherent (handleDeath now s ev).1.grid
      (handleDeath now s ev).1.trail := by
  show trailCoherent (setAll s.grid s.trail Tile.hidden) []
  exact trailCoherent_of_no_trail (death_no_trail hcoh)

theorem closureOp_coherent (W H : Nat) (now : Int) (s : GameState)
    (nextX nextY : Int) :
    trailCoherent (closureOp W H now s nextX nextY).1.grid
      (closureOp W H now s nextX nextY).1.trail := by
  show trailCoherent
    (postGrid (runEnemies W H (tempGridOf s.grid s.trail) s.enemies).visited
      s.grid) []
  exact trailCoherent_of_no_trail (postGrid_no_trail _ _)

/-- The sweep either keeps a tile or turns it revealed. -/
theorem postGrid_pointwise (v : Finset Pt) (g : Grid) (x y : Nat) (t : Tile)
    (h : tileAt g x y = some t) :
    tileAt (postGrid v g) x y = some t ∨
    tileAt (postGrid v g) x y = some Tile.revealed := by
  rw [tileAt_postGrid, h]
  cases t with
  | revealed => right; rfl
  | trail => right; rfl
  | hidden =>
    show some (postTile v x y Tile.hidden) = _ ∨
      some (postTile v x y Tile.hidden) = _
    unfold postTile
    split_ifs with hm
    · left; rfl
    · right; rfl

/-- The death revert either keeps a tile or turns a trail tile hidden. -/
theorem death_pointwise {s : GameState} (hcoh : trailCoherent s.grid s.trail)
    (now : Int) (ev : TickEvents) (x y : Nat) :
    tileAt (handleDeath now s ev).1.grid x y = tileAt s.grid x y ∨
    (tileAt s.grid x y = some Tile.trail ∧
      tileAt (handleDeath now s ev).1.grid x y = some Tile.hidden) := by
  show tileAt (setAll s.grid s.trail Tile.hidden) x y = _ ∨ _
  by_cases hmem : (x, y) ∈ s.trail
  · right
    have ht := (trailCoherent_mem_iff hcoh x y).mpr hmem
    refine ⟨ht, ?_⟩
    exact tileAt_setAll_mem hmem s.grid Tile.hidden (by rw [ht]; rfl)
  · left
    exact tileAt_setAll_not_mem hmem s.grid Tile.hidden

/-! ## Claim theorems -/

/-- C9.  The capture flood fill is an explicit iterative worklist with a
visited set (embedded as `floodLoop` over an explicit stack, mirroring the
source's `const stack = ...; while (stack.length > 0)`), and it terminates
on every finite grid and every adversary configuration: every per-adversary
loop exits because its stack drained (within `floodFuel` iterations), both
for the driver `runEnemies` and for the full `fillCapturedArea`. -/
theorem flood_fill_terminates :
    (∀ (W H : Nat) (g : Grid) (enemies : List Enemy),
      (runEnemies W H g enemies).completed = true) ∧
    (∀ (W H : Nat) (g : Grid) (trail : List Pt) (enemies : List Enemy)
      (c : Nat) (now score : Int),
      (fillCapturedArea W H g trail enemies c now score).floodCompleted =
        true) := by
  constructor
  · intro W H g enemies
    exact runEnemies_completed_aux W H g enemies
  · intro W H g trail enemies c now score
    exact runEnemies_completed_aux W H (tempGridOf g trail) enemies

/-- C10.  Grid/trail coherence: a tile is `Trail` exactly when its
coordinate is in the Trail Tracker and the tracker is duplicate-free
(`trailCoherent`); level initialisation establishes it, and carving,
closure and the death revert each preserve it. -/
theorem grid_trail_coherence :
    (∀ (W H : Nat) (level : LevelConfig) (rands : List (ℚ × ℚ × ℚ × ℚ))
      (now : Int),
      trailCoherent (initState W H level rands now).grid
        (initState W H level rands now).trail) ∧
    (∀ (W H : Nat) (s : GameState) (nextX nextY : Int),
      trailCoherent s.grid s.trail →
      (0 ≤ nextX ∧ nextX < (W : Int) ∧ 0 ≤ nextY ∧ nextY < (H : Int)) →
      tileAtZ s.grid nextX nextY = some Tile.hidden →
      trailCoherent (carveOp s nextX nextY).grid
        (carveOp s nextX nextY).trail) ∧
    (∀ (W H : Nat) (now : Int) (s : GameState) (nextX nextY : Int),
      trailCoherent (closureOp W H now s nextX nextY).1.grid
        (closureOp W H now s nextX nextY).1.trail) ∧
    (∀ (s : GameState) (now : Int) (ev : TickEvents),
      trailCoherent s.grid s.trail →
      trailCoherent (handleDeath now s ev).1.grid
        (handleDeath now s ev).1.trail) := by
  refine ⟨?_, ?_, ?_, ?_⟩
  · intro W H level rands now
    exact trailCoherent_of_no_trail (initGrid_no_trail W H)
  · intro W H s nextX nextY hcoh hb htile
    exact carveOp_coherent (W := W) (H := H) hcoh hb htile
  · intro W H now s nextX nextY
    exact closureOp_coherent W H now s nextX nextY
  · intro s now ev hcoh
    exact handleDeath_coherent hcoh now ev

/-- C3.  `areaRevealed` is monotonically non-decreasing within one level
attempt: the initial state satisfies the invariant, every tick preserves
it while the revealed count and the published percentage never drop and
revealed tiles stay revealed; moreover the closure sweep only converts
tiles to revealed, and the death revert only turns trail tiles back to
hidden, never a revealed tile. -/
theorem area_revealed_monotone :
    (∀ (W H : Nat) (level : LevelConfig) (rands : List (ℚ × ℚ × ℚ × ℚ))
      (now : Int), StateInv W H (initState W H level rands now)) ∧
    (∀ (W H : Nat) (level : LevelConfig) (lt : ℚ) (inp : TickInput)
      (s : GameState), StateInv W H s →
      StateInv W H (tick W H level lt inp s).1 ∧
      countRevealed s.grid ≤ countRevealed (tick W H level lt inp s).1.grid ∧
      s.stats.areaRevealed ≤ (tick W H level lt inp s).1.stats.areaRevealed ∧
      (∀ x y, tileAt s.grid x y = some Tile.revealed →
        tileAt (tick W H level lt inp s).1.grid x y = some Tile.revealed)) ∧
    (∀ (v : Finset Pt) (g : Grid) (x y : Nat) (t : Tile),
      tileAt g x y = some t →
      tileAt (postGrid v g) x y = some t ∨
      tileAt (postGrid v g) x y = some Tile.revealed) ∧
    (∀ (s : GameState) (now : Int) (ev : TickEvents),
      trailCoherent s.grid s.trail → ∀ x y,
      tileAt (handleDeath now s ev).1.grid x y = tileAt s.grid x y ∨
      (tileAt s.grid x y = some Tile.trail ∧
        tileAt (handleDeath now s ev).1.grid x y = some Tile.hidden)) :=
  ⟨initState_inv,
   fun W H level lt inp s h => tick_mono W H level lt inp s h,
   postGrid_pointwise,
   fun _ now ev hcoh x y => death_pointwise hcoh now ev x y⟩

def c3Lvl : LevelConfig :=
  { minRevealPercent := 75, enemyCount := 0, bossSpeed := 1 / 5 }

def c3Inp : TickInput :=
  { dt := 16, now := 1000, dir := (0, 0), spawnRoll := 1, rxRoll := 0,
    ryRoll := 0, statsRoll := 0 }

theorem area_revealed_monotone_witness :
    StateInv 6 6 (initState 6 6 c3Lvl [] 0) ∧
    (StateInv 6 6 (tick 6 6 c3Lvl 10000 c3Inp (initState 6 6 c3Lvl [] 0)).1 ∧
      countRevealed (initState 6 6 c3Lvl [] 0).grid ≤
        countRevealed (tick 6 6 c3Lvl 10000 c3Inp
          (initState 6 6 c3Lvl [] 0)).1.grid ∧
      (initState 6 6 c3Lvl [] 0).stats.areaRevealed ≤
        (tick 6 6 c3Lvl 10000 c3Inp
          (initState 6 6 c3Lvl [] 0)).1.stats.areaRevealed ∧
      (∀ x y, tileAt (initState 6 6 c3Lvl [] 0).grid x y =
          some Tile.revealed →
        tileAt (tick 6 6 c3Lvl 10000 c3Inp
          (initState 6 6 c3Lvl [] 0)).1.grid x y = some Tile.revealed)) :=
  ⟨initState_inv 6 6 c3Lvl [] 0,
   area_revealed_monotone.2.1 6 6 c3Lvl 10000 c3Inp
     (initState 6 6 c3Lvl [] 0) (initState_inv 6 6 c3Lvl [] 0)⟩

/-- C4.  The death protocol: after `handleDeath` (a lethal event processed
while not invulnerable), the Trail Tracker is empty, every tile that was
trail reads back as hidden, `isDrawing` is false, the combo streak is 1,
the life count has decreased by exactly one (and the lives-changed
callback carries the new value), and the player sits on the fixed spawn
tile `(0, 0)` — the same corner the level initialisation uses. -/
theorem death_protocol (s : GameState) (now : Int) (ev : TickEvents)
    (hcoh : trailCoherent s.grid s.trail) :
    (handleDeath now s ev).1.trail = [] ∧
    (∀ x y, tileAt s.grid x y = some Tile.trail →
      tileAt (handleDeath now s ev).1.grid x y = some Tile.hidden) ∧
    (handleDeath now s ev).1.player.isDrawing = false ∧
    (handleDeath now s ev).1.combo.count = 1 ∧
    (handleDeath now s ev).1.player.lives = s.player.lives - 1 ∧
    (handleDeath now s ev).2.livesChanges =
      ev.livesChanges ++ [s.player.lives - 1] ∧
    (handleDeath now s ev).1.player.x = 0 ∧
    (handleDeath now s ev).1.player.y = 0 ∧
    (∀ (W H : Nat) (level : LevelConfig) (rands : List (ℚ × ℚ × ℚ × ℚ))
      (n0 : Int), (initState W H level rands n0).player.x = 0 ∧
        (initState W H level rands n0).player.y = 0) := by
  refine ⟨rfl, ?_, rfl, rfl, rfl, rfl, rfl, rfl,
    fun W H level rands n0 => ⟨rfl, rfl⟩⟩
  intro x y h
  have hmem : (x, y) ∈ s.trail := (trailCoherent_mem_iff hcoh x y).mp h
  show tileAt (setAll s.grid s.trail Tile.hidden) x y = some Tile.hidden
  exact tileAt_setAll_mem hmem s.grid Tile.hidden (by rw [h]; rfl)

def c4State : GameState :=
  { grid := setTile (initGrid 6 6) 3 3 Tile.trail
    player := { x := 3, y := 3, lives := 3, isDrawing := true,
                invulnerableUntil := 0, lastMoveTime := 0 }
    enemies := []
    items := []
    stats := { areaRevealed := 0, timeElapsed := 0, score := 0 }
    trail := [(3, 3)]
    combo := { count := 2, lastActionTime := 500, lastMoveTime := 500 } }

theorem death_protocol_witness :
    trailCoherent c4State.grid c4State.trail ∧
    ((handleDeath 1000 c4State emptyEvents).1.trail = [] ∧
     (∀ x y, tileAt c4State.grid x y = some Tile.trail →
       tileAt (handleDeath 1000 c4State emptyEvents).1.grid x y =
         some Tile.hidden) ∧
     (handleDeath 1000 c4State emptyEvents).1.player.isDrawing = false ∧
     (handleDeath 1000 c4State emptyEvents).1.combo.count = 1 ∧
     (handleDeath 1000 c4State emptyEvents).1.player.lives =
       c4State.player.lives - 1 ∧
     (handleDeath 1000 c4State emptyEvents).2.livesChanges =
       emptyEvents.livesChanges ++ [c4State.player.lives - 1] ∧
     (handleDeath 1000 c4State emptyEvents).1.player.x = 0 ∧
     (handleDeath 1000 c4State emptyEvents).1.player.y = 0 ∧
     (∀ (W H : Nat) (level : LevelConfig) (rands : List (ℚ × ℚ × ℚ × ℚ))
       (n0 : Int), (initState W H level rands n0).player.x = 0 ∧
         (initState W H level rands n0).player.y = 0)) :=
  ⟨by decide, death_protocol c4State 1000 emptyEvents (by decide)⟩

def c10State : GameState :=
  { grid := setTile (initGrid 6 6) 3 3 Tile.trail
    player := { x := 3, y := 3, lives := 3, isDrawing := true,
                invulnerableUntil := 0, lastMoveTime := 0 }
    enemies := []
    items := []
    stats := { areaRevealed := 0, timeElapsed := 0, score := 0 }
    trail := [(3, 3)]
    combo := { count := 1, lastActionTime := 0, lastMoveTime := 0 } }

theorem grid_trail_coherence_witness :
    trailCoherent c10State.grid c10State.trail ∧
    tileAtZ c10State.grid 2 2 = some Tile.hidden ∧
    trailCoherent (carveOp c10State 2 2).grid (carveOp c10State 2 2).trail ∧
    trailCoherent (handleDeath 1000 c10State emptyEvents).1.grid
      (handleDeath 1000 c10State emptyEvents).1.trail :=
  ⟨by decide, by decide,
   grid_trail_coherence.2.1 6 6 c10State 2 2 (by decide) (by decide)
     (by decide),
   grid_trail_coherence.2.2.2 c10State 1000 emptyEvents (by decide)⟩

def c1Grid : Grid := setTile (initGrid 6 6) 1 1 Tile.trail

def c1Enemy : Enemy := { x := 7 / 2, y := 7 / 2, vx := 0, vy := 0 }

/-- C1 counterexample.  A degenerate closure (one trail tile at `(1,1)`,
an adversary at tile `(3,3)` that reaches every remaining hidden tile)
captures `k = 0` tiles and leaves the score unchanged — yet the combo
count increments from 1 to 2, because `fillCapturedArea` increments the
combo unconditionally before checking captures.  This refutes the claim's
"if k = 0 … the combo count does not increment". -/
theorem closure_zero_capture_increments_combo :
    capturedCount
      (runEnemies 6 6 (tempGridOf c1Grid [(1, 1)]) [c1Enemy]).visited
      c1Grid = 0 ∧
    (fillCapturedArea 6 6 c1Grid [(1, 1)] [c1Enemy] 1 1000 0).score = 0 ∧
    (fillCapturedArea 6 6 c1Grid [(1, 1)] [c1Enemy] 1 1000 0).didCapture =
      false ∧
    (fillCapturedArea 6 6 c1Grid [(1, 1)] [c1Enemy] 1 1000 0).combo = 2 := by
  with_unfolding_all decide

/-- C1 (amended).  For a closure performed with combo count `c` that
captures `k` hidden tiles: the combo becomes `c + 1` unconditionally, the
score increases by exactly `10 * (c + 1) * k` (so it is unchanged when
`k = 0`), `didCapture` is set exactly when `k > 0`, and every trail tile
transitions to revealed in all cases. -/
theorem closure_score_combo (W H : Nat) (g : Grid) (trail : List Pt)
    (enemies : List Enemy) (c : Nat) (now score : Int) :
    (fillCapturedArea W H g trail enemies c now score).combo = c + 1 ∧
    (fillCapturedArea W H g trail enemies c now score).score =
      score + 10 * ((c : Int) + 1) *
        (capturedCount
          (runEnemies W H (tempGridOf g trail) enemies).visited g : Int) ∧
    (capturedCount (runEnemies W H (tempGridOf g trail) enemies).visited g =
        0 →
      (fillCapturedArea W H g trail enemies c now score).score = score) ∧
    (fillCapturedArea W H g trail enemies c now score).didCapture =
      decide (0 < capturedCount
        (runEnemies W H (tempGridOf g trail) enemies).visited g) ∧
    (∀ x y, tileAt g x y = some Tile.trail →
      tileAt (fillCapturedArea W H g trail enemies c now score).grid x y =
        some Tile.revealed) := by
  have hscore : (fillCapturedArea W H g trail enemies c now score).score =
      score + sweepScore
        (runEnemies W H (tempGridOf g trail) enemies).visited (c + 1) g :=
    rfl
  have hs2 := sweepScore_eq
    (runEnemies W H (tempGridOf g trail) enemies).visited (c + 1) g
  refine ⟨rfl, ?_, ?_, rfl, ?_⟩
  · rw [hscore, hs2]
    push_cast
    ring
  · intro hk
    rw [hscore, hs2, hk]
    simp
  · intro x y h
    exact postGrid_trail_to_revealed _ _ h

theorem closure_score_combo_witness :
    capturedCount
      (runEnemies 6 6 (tempGridOf c1Grid [(1, 1)]) [c1Enemy]).visited
      c1Grid = 0 ∧
    tileAt c1Grid 1 1 = some Tile.trail ∧
    (fillCapturedArea 6 6 c1Grid [(1, 1)] [c1Enemy] 1 1000 0).score = 0 ∧
    tileAt (fillCapturedArea 6 6 c1Grid [(1, 1)] [c1Enemy] 1 1000 0).grid
      1 1 = some Tile.revealed :=
  ⟨by with_unfolding_all decide, by decide,
   (closure_score_combo 6 6 c1Grid [(1, 1)] [c1Enemy] 1 1000 0).2.2.1
     (by with_unfolding_all decide),
   (closure_score_combo 6 6 c1Grid [(1, 1)] [c1Enemy] 1 1000 0).2.2.2.2 1 1
     (by decide)⟩

/-- C2.  After a closure on a well-formed, coherent state, a hidden tile
of the grid transitions to revealed exactly when it is not reachable from
any adversary's containing tile by a 4-connected path of non-revealed
tiles of the working grid (the grid with the closing trail treated as
revealed); and the combo increments by exactly 1 — in particular a loop
enclosing zero adversaries captures all its hidden tiles, and a loop
enclosing an adversary captures none of them. -/
theorem capture_characterisation (W H : Nat) (g : Grid) (trail : List Pt)
    (enemies : List Enemy) (c : Nat) (now score : Int)
    (hwf : gridWF W H g) (hcoh : trailCoherent g trail) :
    (∀ x y, tileAt g x y = some Tile.hidden →
      (tileAt (fillCapturedArea W H g trail enemies c now score).grid x y =
          some Tile.revealed ↔
        ¬ ∃ e ∈ enemies,
          adversaryBlocks W H (tempGridOf g trail) e (x, y))) ∧
    (fillCapturedArea W H g trail enemies c now score).combo = c + 1 := by
  have htgwf : gridWF W H (tempGridOf g trail) := gridWF_setAll hwf _ _
  have hnt : ∀ x y, tileAt (tempGridOf g trail) x y ≠ some Tile.trail :=
    tempGridOf_no_trail hcoh
  refine ⟨?_, rfl⟩
  intro x y h
  have hgrid : (fillCapturedArea W H g trail enemies c now score).grid =
      postGrid (runEnemies W H (tempGridOf g trail) enemies).visited g := rfl
  rw [hgrid, tileAt_postGrid, h]
  have hmem := runEnemies_visited_iff W H (tempGridOf g trail) enemies (x, y)
  constructor
  · intro hrev
    intro ⟨e, he, hblock⟩
    have hprot : enemyProtects W H (tempGridOf g trail) e (x, y) :=
      (enemyProtects_iff_adversaryBlocks htgwf hnt e (x, y)).mpr hblock
    have hv : (x, y) ∈
        (runEnemies W H (tempGridOf g trail) enemies).visited :=
      hmem.mpr ⟨e, he, hprot⟩
    have : (Option.map
        (postTile (runEnemies W H (tempGridOf g trail) enemies).visited x y)
        (some Tile.hidden)) = some Tile.hidden := by
      show some (postTile _ x y Tile.hidden) = some Tile.hidden
      unfold postTile
      rw [if_pos hv]
    rw [this] at hrev
    exact absurd (Option.some_injective _ hrev) (by simp)
  · intro hnone
    have hv : (x, y) ∉
        (runEnemies W H (tempGridOf g trail) enemies).visited := by
      intro hv
      rcases hmem.mp hv with ⟨e, he, hprot⟩
      exact hnone ⟨e, he,
        (enemyProtects_iff_adversaryBlocks htgwf hnt e (x, y)).mp hprot⟩
    show some (postTile _ x y Tile.hidden) = some Tile.revealed
    unfold postTile
    rw [if_neg hv]

def c2Grid : Grid := setTile (initGrid 6 6) 1 1 Tile.trail

def c2Enemy : Enemy := { x := 7 / 2, y := 7 / 2, vx := 0, vy := 0 }

theorem capture_characterisation_witness :
    gridWF 6 6 c2Grid ∧ trailCoherent c2Grid [(1, 1)] ∧
    ((∀ x y, tileAt c2Grid x y = some Tile.hidden →
      (tileAt (fillCapturedArea 6 6 c2Grid [(1, 1)] [c2Enemy] 1 1000
          0).grid x y = some Tile.revealed ↔
        ¬ ∃ e ∈ [c2Enemy],
          adversaryBlocks 6 6 (tempGridOf c2Grid [(1, 1)]) e (x, y))) ∧
     (fillCapturedArea 6 6 c2Grid [(1, 1)] [c2Enemy] 1 1000 0).combo =
       1 + 1) :=
  ⟨by decide, by decide,
   capture_characterisation 6 6 c2Grid [(1, 1)] [c2Enemy] 1 1000 0
     (by decide) (by decide)⟩

def c5Lvl : LevelConfig :=
  { minRevealPercent := 75, enemyCount := 2, bossSpeed := 1 / 5 }

def c5Inp : TickInput :=
  { dt := 16, now := 1000, dir := (0, 0), spawnRoll := 1, rxRoll := 0,
    ryRoll := 0, statsRoll := 0 }

def c5State : GameState :=
  { grid := setTile (initGrid 8 8) 3 3 Tile.trail
    player := { x := 3, y := 3, lives := 3, isDrawing := true,
                invulnerableUntil := 0, lastMoveTime := 0 }
    enemies := [{ x := 7 / 2, y := 5 / 2, vx := 0, vy := 3 / 5 },
                { x := 1, y := 1, vx := 1 / 5, vy := 0 }]
    items := []
    stats := { areaRevealed := 0, timeElapsed := 0, score := 0 }
    trail := [(3, 3)]
    combo := { count := 1, lastActionTime := 1000, lastMoveTime := 1000 } }

/-- C5 counterexample.  In a single tick at `now = 1000`, the first
adversary steps onto the trail and kills the player: lives drop 3 → 2 and
the invulnerability window `(1000, 4000]` is granted.  The second
adversary then touches the player and is still processed — lives drop
2 → 1 (`livesChanges = [2, 1]`) — even though the lethal contact occurs at
time 1000, strictly inside the freshly granted window, because the
invulnerability flag was computed once at the top of the tick.  This
refutes "any lethal event occurring while invulnerability is active
produces no life-count change". -/
theorem invuln_same_tick_double_death :
    (tick 8 8 c5Lvl 10000 c5Inp c5State).1.player.lives = 1 ∧
    (tick 8 8 c5Lvl 10000 c5Inp c5State).2.livesChanges = [2, 1] ∧
    (tick 8 8 c5Lvl 10000 c5Inp c5State).1.player.invulnerableUntil =
      4000 ∧
    c5Inp.now < 4000 ∧ c5State.player.lives = 3 := by
  set_option maxRecDepth 100000 in with_unfolding_all decide

/-- C5 (amended).  A tick that begins while invulnerability is active
(`now < invulnerableUntil`) processes no lethal event: the life count is
unchanged, no lives-changed or game-over callback fires, and no trail tile
reverts to hidden.  A non-terminal life loss grants the fixed window
`now + INVULNERABILITY_TIME`, with `INVULNERABILITY_TIME = 3000` ms.
Within the very tick of a life loss, however, remaining lethal checks
still use the stale tick-start flag (see the counterexample). -/
theorem invulnerability_protocol :
    (∀ (W H : Nat) (level : LevelConfig) (lt : ℚ) (inp : TickInput)
      (s : GameState), inp.now < s.player.invulnerableUntil →
      (tick W H level lt inp s).1.player.lives = s.player.lives ∧
      (tick W H level lt inp s).2.livesChanges = [] ∧
      (tick W H level lt inp s).2.gameOver = [] ∧
      (∀ x y, tileAt s.grid x y = some Tile.trail →
        tileAt (tick W H level lt inp s).1.grid x y ≠ some Tile.hidden)) ∧
    (∀ (s : GameState) (now : Int) (ev : TickEvents),
      0 < s.player.lives - 1 →
      (handleDeath now s ev).1.player.invulnerableUntil =
        now + INVULNERABILITY_TIME) ∧
    INVULNERABILITY_TIME = 3000 := by
  refine ⟨fun W H level lt inp s h => tick_invuln W H level lt inp s h,
    ?_, rfl⟩
  intro s now ev h
  show (if 0 < s.player.lives - 1 then now + INVULNERABILITY_TIME
    else s.player.invulnerableUntil) = now + INVULNERABILITY_TIME
  rw [if_pos h]

def c5iState : GameState :=
  { c5State with player := { c5State.player with invulnerableUntil := 5000 } }

theorem invulnerability_protocol_witness :
    c5Inp.now < c5iState.player.invulnerableUntil ∧
    ((tick 8 8 c5Lvl 10000 c5Inp c5iState).1.player.lives =
      c5iState.player.lives ∧
     (tick 8 8 c5Lvl 10000 c5Inp c5iState).2.livesChanges = [] ∧
     (tick 8 8 c5Lvl 10000 c5Inp c5iState).2.gameOver = [] ∧
     (∀ x y, tileAt c5iState.grid x y = some Tile.trail →
       tileAt (tick 8 8 c5Lvl 10000 c5Inp c5iState).1.grid x y ≠
         some Tile.hidden)) :=
  ⟨by decide,
   invulnerability_protocol.1 8 8 c5Lvl 10000 c5Inp c5iState (by decide)⟩

def c6Lvl : LevelConfig :=
  { minRevealPercent := 75, enemyCount := 0, bossSpeed := 1 / 5 }

def c6Inp : TickInput :=
  { dt := 16, now := 1000, dir := (0, 0), spawnRoll := 1, rxRoll := 0,
    ryRoll := 0, statsRoll := 0 }

def c6State : GameState :=
  { grid := initGrid 6 6
    player := { x := 0, y := 0, lives := 3, isDrawing := false,
                invulnerableUntil := 0, lastMoveTime := 0 }
    enemies := []
    items := []
    stats := { areaRevealed := 80, timeElapsed := 10, score := 500 }
    trail := []
    combo := { count := 1, lastActionTime := 1000, lastMoveTime := 1000 } }

/-- C6.  Evaluating the code at the failing input: with
`areaRevealed = 80 ≥ minRevealPercent = 75` and lives remaining, the tick
fires level-complete with that tick's stats — but the end of `gameLoop`
still requests another animation frame, because its re-scheduling guard is
`lives > 0 && areaRevealed < 100`, and the `cancelAnimationFrame` call in
the win check cancels the already-running frame's stale handle.  So
further simulation ticks are scheduled (and level-complete re-fires each
tick), contradicting "no further simulation ticks occur afterward". -/
theorem level_complete_still_reschedules :
    (tick 6 6 c6Lvl 10000 c6Inp c6State).2.levelComplete =
      some (tick 6 6 c6Lvl 10000 c6Inp c6State).1.stats ∧
    (tick 6 6 c6Lvl 10000 c6Inp c6State).1.stats.areaRevealed = 80 ∧
    c6Lvl.minRevealPercent = 75 ∧
    schedulesNextTick (tick 6 6 c6Lvl 10000 c6Inp c6State).1 = true := by
  set_option maxRecDepth 100000 in with_unfolding_all decide

/-- C7.  Adversary reflection: per axis, the velocity component is
inverted exactly when the integrated target tile column (row) is out of
range or the target tile is revealed; if either axis collided, neither
axis's movement is applied this tick, and otherwise the adversary moves
and its new containing tile is in bounds and not revealed (confinement to
hidden-or-trail territory). -/
theorem enemy_reflection (W H : Nat) (now : Int) (isInvuln : Bool)
    (acc : GameState × TickEvents × List Enemy) (e : Enemy) :
    ∃ e' : Enemy,
      (enemyStep W H now isInvuln acc e).2.2 = acc.2.2 ++ [e'] ∧
      e'.vx = (if Rat.floor (e.x + e.vx) < 0 ∨
          (W : Int) ≤ Rat.floor (e.x + e.vx) ∨
          tileAtZ acc.1.grid (Rat.floor (e.x + e.vx))
            (Rat.floor (e.y + e.vy)) = some Tile.revealed
        then -e.vx else e.vx) ∧
      e'.vy = (if Rat.floor (e.y + e.vy) < 0 ∨
          (H : Int) ≤ Rat.floor (e.y + e.vy) ∨
          tileAtZ acc.1.grid (Rat.floor (e.x + e.vx))
            (Rat.floor (e.y + e.vy)) = some Tile.revealed
        then -e.vy else e.vy) ∧
      (¬ (Rat.floor (e.x + e.vx) < 0 ∨
          (W : Int) ≤ Rat.floor (e.x + e.vx) ∨
          tileAtZ acc.1.grid (Rat.floor (e.x + e.vx))
            (Rat.floor (e.y + e.vy)) = some Tile.revealed) →
       ¬ (Rat.floor (e.y + e.vy) < 0 ∨
          (H : Int) ≤ Rat.floor (e.y + e.vy) ∨
          tileAtZ acc.1.grid (Rat.floor (e.x + e.vx))
            (Rat.floor (e.y + e.vy)) = some Tile.revealed) →
        e'.x = e.x + e.vx ∧ e'.y = e.y + e.vy ∧
        0 ≤ Rat.floor (e.x + e.vx) ∧ Rat.floor (e.x + e.vx) < (W : Int) ∧
        0 ≤ Rat.floor (e.y + e.vy) ∧ Rat.floor (e.y + e.vy) < (H : Int) ∧
        tileAtZ acc.1.grid (Rat.floor (e.x + e.vx))
          (Rat.floor (e.y + e.vy)) ≠ some Tile.revealed) ∧
      ((Rat.floor (e.x + e.vx) < 0 ∨
          (W : Int) ≤ Rat.floor (e.x + e.vx) ∨
          tileAtZ acc.1.grid (Rat.floor (e.x + e.vx))
            (Rat.floor (e.y + e.vy)) = some Tile.revealed ∨
        Rat.floor (e.y + e.vy) < 0 ∨
          (H : Int) ≤ Rat.floor (e.y + e.vy)) →
        e'.x = e.x ∧ e'.y = e.y) := by
  unfold enemyStep
  dsimp only
  refine ⟨_, rfl, ?_, ?_, ?_, ?_⟩
  · refine if_congr ?_ rfl rfl
    simp [or_assoc]
  · refine if_congr ?_ rfl rfl
    simp [or_assoc]
  · intro h1 h2
    push_neg at h1 h2
    have hx : (decide (Rat.floor (e.x + e.vx) < 0) ||
        decide ((W : Int) ≤ Rat.floor (e.x + e.vx)) ||
        decide (tileAtZ acc.1.grid (Rat.floor (e.x + e.vx))
          (Rat.floor (e.y + e.vy)) = some Tile.revealed)) = false := by
      simp only [Bool.or_eq_false_iff, decide_eq_false_iff_not]
      exact ⟨⟨by omega, by omega⟩, h1.2.2⟩
    have hy : (decide (Rat.floor (e.y + e.vy) < 0) ||
        decide ((H : Int) ≤ Rat.floor (e.y + e.vy)) ||
        decide (tileAtZ acc.1.grid (Rat.floor (e.x + e.vx))
          (Rat.floor (e.y + e.vy)) = some Tile.revealed)) = false := by
      simp only [Bool.or_eq_false_iff, decide_eq_false_iff_not]
      exact ⟨⟨by omega, by omega⟩, h2.2.2⟩
    rw [hx, hy]
    refine ⟨rfl, rfl, by omega, by omega, by omega, by omega, h1.2.2⟩
  · intro h
    have hcol : (decide (Rat.floor (e.x + e.vx) < 0) ||
        decide ((W : Int) ≤ Rat.floor (e.x + e.vx)) ||
        decide (tileAtZ acc.1.grid (Rat.floor (e.x + e.vx))
          (Rat.floor (e.y + e.vy)) = some Tile.revealed) ||
        (decide (Rat.floor (e.y + e.vy) < 0) ||
        decide ((H : Int) ≤ Rat.floor (e.y + e.vy)) ||
        decide (tileAtZ acc.1.grid (Rat.floor (e.x + e.vx))
          (Rat.floor (e.y + e.vy)) = some Tile.revealed))) = true := by
      rcases h with h | h | h | h | h
      · simp [h]
      · simp [h]
      · simp [h]
      · simp [h]
      · simp [h]
    rw [hcol]
    exact ⟨rfl, rfl⟩

def c7State : GameState :=
  { grid := initGrid 6 6
    player := { x := 0, y := 0, lives := 3, isDrawing := false,
                invulnerableUntil := 0, lastMoveTime := 0 }
    enemies := []
    items := []
    stats := { areaRevealed := 0, timeElapsed := 0, score := 0 }
    trail := []
    combo := { count := 1, lastActionTime := 0, lastMoveTime := 0 } }

def c7e : Enemy := { x := 1, y := 1, vx := 1, vy := 0 }

theorem enemy_reflection_witness :
    ∃ e' : Enemy,
      (enemyStep 6 6 1000 false (c7State, emptyEvents, []) c7e).2.2 =
        [] ++ [e'] ∧ e'.x = 2 ∧ e'.y = 1 ∧ e'.vx = 1 := by
  obtain ⟨e', h1, h2, h3, h4, h5⟩ :=
    enemy_reflection 6 6 1000 false (c7State, emptyEvents, []) c7e
  have hmove := h4 (by with_unfolding_all decide)
    (by with_unfolding_all decide)
  refine ⟨e', h1, ?_, ?_, ?_⟩
  · rw [hmove.1]
    with_unfolding_all decide
  · rw [hmove.2.1]
    with_unfolding_all decide
  · rw [h2]
    rw [if_neg (by with_unfolding_all decide)]
    with_unfolding_all decide

def c8State : GameState :=
  { grid := setTile (initGrid 6 6) 3 3 Tile.trail
    player := { x := 0, y := 0, lives := 3, isDrawing := false,
                invulnerableUntil := 0, lastMoveTime := 0 }
    enemies := []
    items := []
    stats := { areaRevealed := 0, timeElapsed := 0, score := 0 }
    trail := [(3, 3)]
    combo := { count := 1, lastActionTime := 0, lastMoveTime := 0 } }

/-- C8 counterexample.  With the spawn roll passing (`1/1000 < 0.003`),
fewer than 3 active items, and the random interior tile `(3, 3)` landing
on a Trail tile, no item is spawned: the spawn is guarded by
`grid[ry][rx] === 1 || grid[ry][rx] === 0`, which excludes Trail tiles.
This refutes "spawned ... regardless of that tile's current state
(Hidden, Revealed, or Trail)". -/
theorem item_spawn_skips_trail_tile :
    (1 : ℚ) / 1000 < 3 / 1000 ∧ c8State.items.length < 3 ∧
    (Rat.floor ((1 : ℚ) / 2 * ((6 : ℚ) - 2))).toNat + 1 = 3 ∧
    tileAt c8State.grid 3 3 = some Tile.trail ∧
    (itemSpawn 6 6 8 (1 / 1000) (1 / 2) (1 / 2) c8State).items = [] := by
  with_unfolding_all decide

/-- C8 (amended).  When the spawn roll passes (`roll < 0.003`) and fewer
than 3 items are active, the candidate tile `(rx, ry)` is interior
(`1 ≤ rx ≤ W−2`, `1 ≤ ry ≤ H−2` for unit rolls and grids of side ≥ 3),
and exactly one item is appended there if that tile is Hidden or
Revealed; if the tile is Trail, no item is spawned this tick.  When the
roll fails or 3 items are already active, the item list is unchanged. -/
theorem item_spawn_spec (W H : Nat) (lt q1 q2 q3 : ℚ) (s : GameState)
    (hq2 : 0 ≤ q2) (hq2' : q2 < 1) (hq3 : 0 ≤ q3) (hq3' : q3 < 1)
    (hW : 3 ≤ W) (hH : 3 ≤ H) :
    (1 ≤ (Rat.floor (q2 * ((W : ℚ) - 2))).toNat + 1 ∧
     (Rat.floor (q2 * ((W : ℚ) - 2))).toNat + 1 ≤ W - 2 ∧
     1 ≤ (Rat.floor (q3 * ((H : ℚ) - 2))).toNat + 1 ∧
     (Rat.floor (q3 * ((H : ℚ) - 2))).toNat + 1 ≤ H - 2) ∧
    (q1 < 3 / 1000 → s.items.length < 3 →
      ((tileAt s.grid ((Rat.floor (q2 * ((W : ℚ) - 2))).toNat + 1)
          ((Rat.floor (q3 * ((H : ℚ) - 2))).toNat + 1) = some Tile.hidden ∨
        tileAt s.grid ((Rat.floor (q2 * ((W : ℚ) - 2))).toNat + 1)
          ((Rat.floor (q3 * ((H : ℚ) - 2))).toNat + 1) =
            some Tile.revealed) →
        (itemSpawn W H lt q1 q2 q3 s).items = s.items ++
          [{ x := (Rat.floor (q2 * ((W : ℚ) - 2))).toNat + 1,
             y := (Rat.floor (q3 * ((H : ℚ) - 2))).toNat + 1,
             life := lt, maxLife := lt }]) ∧
      (tileAt s.grid ((Rat.floor (q2 * ((W : ℚ) - 2))).toNat + 1)
          ((Rat.floor (q3 * ((H : ℚ) - 2))).toNat + 1) = some Tile.trail →
        (itemSpawn W H lt q1 q2 q3 s).items = s.items)) ∧
    (¬ q1 < 3 / 1000 → (itemSpawn W H lt q1 q2 q3 s).items = s.items) ∧
    (¬ s.items.length < 3 →
      (itemSpawn W H lt q1 q2 q3 s).items = s.items) := by
  have hW' : (3 : ℚ) ≤ (W : ℚ) := by exact_mod_cast hW
  have hH' : (3 : ℚ) ≤ (H : ℚ) := by exact_mod_cast hH
  have hWpos : (0 : ℚ) < (W : ℚ) - 2 := by linarith
  have hHpos : (0 : ℚ) < (H : ℚ) - 2 := by linarith
  have hfx0 : 0 ≤ Rat.floor (q2 * ((W : ℚ) - 2)) := by
    rw [ratFloor_eq_floor]
    exact Int.floor_nonneg.mpr (mul_nonneg hq2 (le_of_lt hWpos))
  have hfy0 : 0 ≤ Rat.floor (q3 * ((H : ℚ) - 2)) := by
    rw [ratFloor_eq_floor]
    exact Int.floor_nonneg.mpr (mul_nonneg hq3 (le_of_lt hHpos))
  have hfx1 : Rat.floor (q2 * ((W : ℚ) - 2)) < (W : Int) - 2 := by
    rw [ratFloor_eq_floor]
    refine Int.floor_lt.mpr ?_
    push_cast
    nlinarith
  have hfy1 : Rat.floor (q3 * ((H : ℚ) - 2)) < (H : Int) - 2 := by
    rw [ratFloor_eq_floor]
    refine Int.floor_lt.mpr ?_
    push_cast
    nlinarith
  refine ⟨⟨by omega, by omega, by omega, by omega⟩, ?_, ?_, ?_⟩
  · intro hq hlen
    constructor
    · intro htile
      unfold itemSpawn
      rw [if_pos ⟨hq, hlen⟩]
      dsimp only
      rw [if_pos htile]
    · intro htile
      unfold itemSpawn
      rw [if_pos ⟨hq, hlen⟩]
      dsimp only
      rw [if_neg (by rw [htile]; simp)]
  · intro hq
    unfold itemSpawn
    rw [if_neg (fun h => hq h.1)]
  · intro hlen
    unfold itemSpawn
    rw [if_neg (fun h => hlen h.2)]

def c8wState : GameState :=
  { grid := initGrid 6 6
    player := { x := 0, y := 0, lives := 3, isDrawing := false,
                invulnerableUntil := 0, lastMoveTime := 0 }
    enemies := []
    items := []
    stats := { areaRevealed := 0, timeElapsed := 0, score := 0 }
    trail := []
    combo := { count := 1, lastActionTime := 0, lastMoveTime := 0 } }

theorem item_spawn_spec_witness :
    (itemSpawn 6 6 8 (1 / 1000) (1 / 2) (1 / 2) c8wState).items =
      c8wState.items ++
        [{ x := (Rat.floor ((1 : ℚ) / 2 * ((6 : ℚ) - 2))).toNat + 1,
           y := (Rat.floor ((1 : ℚ) / 2 * ((6 : ℚ) - 2))).toNat + 1,
           life := 8, maxLife := 8 }] :=
  ((item_spawn_spec 6 6 8 (1 / 1000) (1 / 2) (1 / 2) c8wState
      (by norm_num) (by norm_num) (by norm_num) (by norm_num)
      (by norm_num) (by norm_num)).2.1 (by norm_num) (by decide)).1
    (by with_unfolding_all decide)

end Siilveer
